import Mathlib

/-!
Verification of the paper-record persistence and query layer of the
MCP research server (`mcp_research_server`): the topic-name sanitizer,
the per-topic JSON record store (`models.py`, `utils/file_handler.py`)
and the statistics / title-search / export views built on top of it
(`tools/paper_info.py`, `tools/arxiv_search.py`).

Modelling conventions (shallow embedding):
* Python strings are Lean `String`s (lists of characters); `str.lower`,
  `str.title`, `str.strip`, `str.replace`, `str.split` are embedded
  character-wise with the toolchain's ASCII case maps (`Char.toLower`,
  `Char.toUpper`), matching CPython on ASCII data.
* Python dicts are insertion-ordered association lists; assignment to an
  existing key overwrites in place, assignment to a fresh key appends.
* `datetime.date` values are represented by their canonical ISO-8601
  rendering (`date.isoformat()`), on which lexicographic string order
  agrees with chronological order and `datetime.fromisoformat` is the
  identity; a stored record's `published` field therefore round-trips.
* A topic's collection file is a `FileState`: absent, present but not
  JSON, or parsed JSON (an association list keyed by paper id, matching
  what `json.load` hands to `PaperDatabase.from_json_dict`).
* The filesystem tree under `papers_dir` is a list of directory entries
  in iteration (`iterdir`) order.
* Exceptions are `Except String`; a Python `try`/`except` boundary is a
  `match` on that value.
-/

/-- Python `str.replace(pat, rep)` on character lists: left-to-right,
non-overlapping replacement.  Structural recursion over a fuel argument
(one unit per examined character) so that the function is computable by
the kernel; `pyReplace` below supplies adequate fuel. -/
def pyReplaceFuel (pat rep : List Char) : Nat → List Char → List Char
  | _, [] => []
  | 0, s => s
  | fuel + 1, c :: cs =>
    if pat.isPrefixOf (c :: cs) then
      rep ++ pyReplaceFuel pat rep fuel (List.drop pat.length (c :: cs))
    else
      c :: pyReplaceFuel pat rep fuel cs

/-- Python `s.replace(pat, rep)` for a nonempty pattern. -/
def pyReplace (pat rep s : List Char) : List Char :=
  pyReplaceFuel pat rep s.length s

/-- Python `pat in s` (substring test) on character lists. -/
def containsSub (pat : List Char) : List Char → Bool
  | [] => pat.isPrefixOf []
  | c :: cs => pat.isPrefixOf (c :: cs) || containsSub pat cs

/-- Number of positions at which `pat` occurs in `s` (occurrences may
overlap).  Counts how many places a string "appears" in another. -/
def countOccs (pat : List Char) : List Char → Nat
  | [] => if pat.isPrefixOf ([] : List Char) then 1 else 0
  | c :: cs => (if pat.isPrefixOf (c :: cs) then 1 else 0) + countOccs pat cs

/-- Drop the characters satisfying `p` from both ends of a list
(Python `str.strip` with an explicit character class). -/
def stripChars (p : Char → Bool) (s : List Char) : List Char :=
  ((s.dropWhile p).reverse.dropWhile p).reverse

/-- Python `str.strip()` (no arguments): trim ASCII whitespace. -/
def pyStrip (s : String) : String :=
  ⟨stripChars Char.isWhitespace s.data⟩

/-- Python `str.lower()` (ASCII case map). -/
def pyLower (s : String) : String :=
  ⟨s.data.map Char.toLower⟩

/-- Helper for `pySplit`: accumulates the current word (reversed). -/
def pyWordsAux : List Char → List Char → List String
  | acc, [] => if acc.isEmpty then [] else [⟨acc.reverse⟩]
  | acc, c :: cs =>
    if c.isWhitespace then
      if acc.isEmpty then pyWordsAux [] cs else ⟨acc.reverse⟩ :: pyWordsAux [] cs
    else
      pyWordsAux (c :: acc) cs

/-- Python `str.split()` (no arguments): whitespace-delimited words,
empty pieces discarded. -/
def pySplit (s : String) : List String :=
  pyWordsAux [] s.data

/-- Helper for `pyTitle`: the flag records whether the previous
character was alphabetic. -/
def pyTitleAux : Bool → List Char → List Char
  | _, [] => []
  | prevAlpha, c :: cs =>
    if c.isAlpha then
      (if prevAlpha then c.toLower else c.toUpper) :: pyTitleAux true cs
    else
      c :: pyTitleAux false cs

/-- Python `str.title()` (ASCII): uppercase each letter that follows a
non-letter, lowercase the other letters. -/
def pyTitle (s : String) : String :=
  ⟨pyTitleAux false s.data⟩

/-! ### Insertion-ordered dictionaries (Python `dict`) -/

/-- `d[k] = v` on an insertion-ordered association list: overwrite in
place when the key is present, append otherwise. -/
def dictInsert (m : List (String × α)) (k : String) (v : α) : List (String × α) :=
  if m.any (fun kv => kv.1 == k) then
    m.map (fun kv => if kv.1 == k then (k, v) else kv)
  else
    m ++ [(k, v)]

/-- `d.get(k)`. -/
def dictGet (m : List (String × α)) (k : String) : Option α :=
  (m.find? (fun kv => kv.1 == k)).map (fun kv => kv.2)

/-- `k in d`. -/
def dictHas (m : List (String × α)) (k : String) : Bool :=
  m.any (fun kv => kv.1 == k)

/-- The keys of a dictionary, in insertion order. -/
def dictKeys (m : List (String × α)) : List String :=
  m.map (fun kv => kv.1)

/-! ### Data model (`models.py`) -/

/-- `Author`: a single display name (`models.py`, class `Author`). -/
structure Author where
  name : String
deriving Repr, DecidableEq

/-- `PaperInfo` (`models.py`): one paper's stored metadata.  `pdf_url`
is kept as the URL string; `published`/`updated` hold the dates' ISO
renderings. -/
structure PaperInfo where
  paper_id : String
  title : String
  authors : List Author
  summary : String
  pdf_url : String
  published : String
  category : Option String
  updated : Option String
  doi : Option String
deriving Repr, DecidableEq

/-- The two accepted JSON shapes of an `authors` field: a list of bare
name strings (legacy) or a list of `{name: ...}` objects. -/
inductive AuthorsJson where
  | strs (names : List String)
  | objs (names : List String)
deriving Repr, DecidableEq

/-- One record of a topic's JSON collection file, as handed to
`PaperInfo.from_dict` after `json.load`. -/
structure RawPaper where
  paper_id : String
  title : String
  authors : AuthorsJson
  summary : String
  pdf_url : String
  published : String
  category : Option String
  updated : Option String
  doi : Option String
deriving Repr, DecidableEq

/-- A metadata value (`PaperDatabase.metadata` maps strings to
timestamps, topic names or counts). -/
inductive MetaValue where
  | str (s : String)
  | nat (n : Nat)
deriving Repr, DecidableEq

/-- `PaperDatabase` (`models.py`): papers keyed by id plus free-form
metadata, both insertion-ordered. -/
structure PaperDatabase where
  papers : List (String × PaperInfo)
  metadata : List (String × MetaValue)
deriving Repr, DecidableEq

/-- `PaperDatabase()`: empty collection. -/
def PaperDatabase.empty : PaperDatabase := ⟨[], []⟩

/-- `PaperDatabase.add_paper`: `self.papers[paper.paper_id] = paper`. -/
def PaperDatabase.addPaper (db : PaperDatabase) (p : PaperInfo) : PaperDatabase :=
  { db with papers := dictInsert db.papers p.paper_id p }

/-- `PaperDatabase.get_paper`: `self.papers.get(paper_id)`. -/
def PaperDatabase.getPaper (db : PaperDatabase) (pid : String) : Option PaperInfo :=
  dictGet db.papers pid

/-- `PaperDatabase.has_paper`: `paper_id in self.papers`. -/
def PaperDatabase.hasPaper (db : PaperDatabase) (pid : String) : Bool :=
  dictHas db.papers pid

/-- `PaperInfo.to_dict`: dates to ISO strings, authors reduced to bare
names (the legacy string-list shape), URL to a plain string. -/
def PaperInfo.toDict (p : PaperInfo) : RawPaper :=
  { paper_id := p.paper_id
    title := p.title
    authors := AuthorsJson.strs (p.authors.map Author.name)
    summary := p.summary
    pdf_url := p.pdf_url
    published := p.published
    category := p.category
    updated := p.updated
    doi := p.doi }

/-- The validator / construction step of `PaperInfo.from_dict`, shared
by both author shapes: the pydantic validators on id/title/summary,
then construction. -/
def PaperInfo.fromDictChecked (d : RawPaper) (names : List String) : Except String PaperInfo :=
  if (pyStrip d.paper_id).data.isEmpty then
      Except.error "ValidationError: Paper ID cannot be empty"
  else if (pyStrip d.title).data.isEmpty then
    Except.error "ValidationError: Title cannot be empty"
  else if (pyStrip d.summary).data.isEmpty then
    Except.error "ValidationError: Summary cannot be empty"
  else
    Except.ok
      { paper_id := pyStrip d.paper_id
        title := pyStrip d.title
        authors := names.map Author.mk
        summary := pyStrip d.summary
        pdf_url := d.pdf_url
        published := d.published
        category := d.category
        updated := d.updated
        doi := d.doi }

/-- `PaperInfo.from_dict` plus the pydantic validators run by the
constructor.  The author-shape sniff `isinstance(data['authors'][0], str)`
raises `IndexError` on an empty list of either shape; empty (after
`strip()`) id/title/summary raise `ValidationError`. -/
def PaperInfo.fromDict (d : RawPaper) : Except String PaperInfo :=
  match d.authors with
  | AuthorsJson.strs [] => Except.error "IndexError: list index out of range"
  | AuthorsJson.objs [] => Except.error "IndexError: list index out of range"
  | AuthorsJson.strs (n :: ns) => PaperInfo.fromDictChecked d (n :: ns)
  | AuthorsJson.objs (n :: ns) => PaperInfo.fromDictChecked d (n :: ns)

/-- `PaperDatabase.to_json_dict`: serialize the paper mapping only —
the metadata dictionary is NOT part of the output. -/
def PaperDatabase.toJsonDict (db : PaperDatabase) : List (String × RawPaper) :=
  db.papers.map (fun kv => (kv.1, kv.2.toDict))

/-- `PaperDatabase.from_json_dict`: build the paper dictionary entry by
entry; the first record that fails `PaperInfo.from_dict` aborts the
whole deserialization (the exception propagates). -/
def PaperDatabase.fromJsonDict (data : List (String × RawPaper)) : Except String PaperDatabase := do
  let papers ← data.foldlM
    (fun acc kv => do
      let p ← PaperInfo.fromDict kv.2
      pure (dictInsert acc kv.1 p))
    ([] : List (String × PaperInfo))
  pure ⟨papers, []⟩

/-- The observable states of a topic's collection file. -/
inductive FileState where
  | missing
  | notJson
  | json (data : List (String × RawPaper))
deriving Repr, DecidableEq

/-- `PaperDatabase.load_from_file`: `FileNotFoundError` and
`JSONDecodeError` are caught and yield an empty database; any failure
inside `from_json_dict` propagates. -/
def PaperDatabase.loadFromFile (fs : FileState) : Except String PaperDatabase :=
  match fs with
  | FileState.missing => Except.ok PaperDatabase.empty
  | FileState.notJson => Except.ok PaperDatabase.empty
  | FileState.json data => PaperDatabase.fromJsonDict data

/-! ### File handler (`utils/file_handler.py`) -/

/-- The character class removed by `FileHandler._sanitize_filename`
(`invalid_chars = '<>:"/\\|?*'`). -/
def invalidFilenameChars : String := "<>:\"/\\|?*"

/-- Iterated `sanitized.replace("__", "_")` — the body of the
`while "__" in sanitized` loop, with one fuel unit per iteration (each
pass strictly shortens the string, so `s.length` passes suffice). -/
def collapseFuel : Nat → List Char → List Char
  | 0, s => s
  | fuel + 1, s =>
    if containsSub ['_', '_'] s then collapseFuel fuel (pyReplace ['_', '_'] ['_'] s)
    else s

/-- The `while "__" in sanitized` loop of `_sanitize_filename`. -/
def collapseUnderscores (s : List Char) : List Char :=
  collapseFuel s.length s

/-- `FileHandler._sanitize_filename`: lowercase, spaces to underscores,
drop the invalid characters, collapse runs of underscores, trim edge
underscores. -/
def sanitizeFilename (filename : String) : String :=
  ⟨stripChars (fun c => c == '_')
    (collapseUnderscores
      (invalidFilenameChars.data.foldl (fun acc ch => pyReplace [ch] [] acc)
        (pyReplace [' '] ['_'] (filename.data.map Char.toLower))))⟩

/-- `FileHandler.get_topic_directory` (path relative to `papers_dir`). -/
def getTopicDirectory (topic : String) : String :=
  sanitizeFilename topic

/-- `FileHandler.get_papers_info_file`. -/
def getPapersInfoFile (topic : String) : String :=
  getTopicDirectory topic ++ "/papers_info.json"

/-- One entry of the `papers_dir` tree in `iterdir` order: a name, a
directory flag, and — for directories — the state of the
`papers_info.json` file inside it. -/
structure DirEntry where
  name : String
  isDir : Bool
  file : FileState
deriving Repr, DecidableEq

/-- `FileHandler.load_papers_database`: `load_from_file` behind a
catch-all `except` that degrades to an empty database. -/
def loadPapersDatabase (fs : FileState) : PaperDatabase :=
  match PaperDatabase.loadFromFile fs with
  | Except.ok db => db
  | Except.error _ => PaperDatabase.empty

/-- Resolving a topic string to its collection file's state: the first
directory named `sanitizeFilename topic`, else a missing file. -/
def storeResolve (store : List DirEntry) (topic : String) : FileState :=
  match store.find? (fun d => d.isDir && (d.name == sanitizeFilename topic)) with
  | some d => d.file
  | none => FileState.missing

/-- `FileHandler.load_papers_database` at the store level. -/
def storeLoad (store : List DirEntry) (topic : String) : PaperDatabase :=
  loadPapersDatabase (storeResolve store topic)

/-- `FileHandler.save_papers_database`: update the in-memory metadata
(`last_updated`, `topic`, `paper_count`), then `save_to_file`, which
serializes `to_json_dict()` — the papers only.  Returns the mutated
database, the file content written, and the path. -/
def savePapersDatabase (topic : String) (db : PaperDatabase) (now : String) :
    PaperDatabase × FileState × String :=
  let md := dictInsert db.metadata "last_updated" (MetaValue.str now)
  let md := dictInsert md "topic" (MetaValue.str topic)
  let md := dictInsert md "paper_count" (MetaValue.nat db.papers.length)
  let db1 := { db with metadata := md }
  (db1, FileState.json db1.toJsonDict, getPapersInfoFile topic)

/-- `save_papers_database` acting on the directory tree:
`create_topic_directory` (mkdir if needed) followed by the full
overwrite of the topic's collection file. -/
def applySave (store : List DirEntry) (topic : String) (db : PaperDatabase) (now : String) :
    List DirEntry × PaperDatabase × String :=
  let r := savePapersDatabase topic db now
  let name := sanitizeFilename topic
  if store.any (fun d => d.isDir && (d.name == name)) then
    (store.map (fun d => if d.isDir && (d.name == name) then ⟨name, true, r.2.1⟩ else d),
      r.1, r.2.2)
  else
    (store ++ [⟨name, true, r.2.1⟩], r.1, r.2.2)

/-- `FileHandler.find_paper_across_topics`: scan the directory entries
in order; skip non-directories and directories without a collection
file; a load error (caught `except`) skips the directory; return the
first record whose identifier matches. -/
def findPaperAcrossTopics (store : List DirEntry) (pid : String) : Option PaperInfo :=
  match store with
  | [] => none
  | d :: rest =>
    if !d.isDir then findPaperAcrossTopics rest pid
    else if d.file == FileState.missing then findPaperAcrossTopics rest pid
    else
      match PaperDatabase.loadFromFile d.file with
      | Except.error _ => findPaperAcrossTopics rest pid
      | Except.ok db =>
        match db.getPaper pid with
        | some p => some p
        | none => findPaperAcrossTopics rest pid

/-- The lossy display mapping used by `list_all_topics`:
`item.name.replace("_", " ").title()`. -/
def displayLabel (name : String) : String :=
  pyTitle ⟨pyReplace ['_'] [' '] name.data⟩

/-- `FileHandler.list_all_topics`: labels of the directories holding a
`papers_info.json`, sorted (`sorted()` on strings). -/
def listAllTopics (store : List DirEntry) : List String :=
  let topics := (store.filter (fun d => d.isDir && !(d.file == FileState.missing))).map
    (fun d => displayLabel d.name)
  topics.insertionSort (fun a b => a ≤ b)

/-- The maximum of a list of ISO date strings (`max(papers, key=...)`
followed by `.isoformat()`). -/
def maxDate (l : List String) : String :=
  l.foldl (fun acc x => if acc < x then x else acc) ""

/-- The minimum of a nonempty list of ISO date strings, with the head
as the seed. -/
def minDate : List String → String
  | [] => ""
  | x :: xs => xs.foldl (fun acc y => if y < acc then y else acc) x

/-- The result shape of `FileHandler.get_topic_stats`; the `Option`
fields are the keys absent from the empty-topic dictionary. -/
structure TopicStats where
  topic : String
  paper_count : Nat
  latest_paper : Option String
  oldest_paper : Option String
  last_updated : Option String
deriving Repr, DecidableEq

/-- `metadata.get("last_updated", "Unknown")`, rendered as a string. -/
def metaGetLastUpdated (md : List (String × MetaValue)) : String :=
  match dictGet md "last_updated" with
  | some (MetaValue.str s) => s
  | some (MetaValue.nat n) => toString n
  | none => "Unknown"

/-- `FileHandler.get_topic_stats`: one load; count zero and no date
fields for an empty collection. -/
def getTopicStats (store : List DirEntry) (topic : String) : TopicStats :=
  let db := storeLoad store topic
  if db.papers.isEmpty then
    { topic := topic, paper_count := 0, latest_paper := none, oldest_paper := none,
      last_updated := none }
  else
    let pubs := db.papers.map (fun kv => kv.2.published)
    { topic := topic
      paper_count := db.papers.length
      latest_paper := some (maxDate pubs)
      oldest_paper := some (minDate pubs)
      last_updated := some (metaGetLastUpdated db.metadata) }

/-! ### Paper info tool (`tools/paper_info.py`) -/

/-- One element of the `search_papers_by_title` result list. -/
structure TitleHit where
  id : String
  title : String
  authors : List String
  published : String
  topic : String
  category : Option String
deriving Repr, DecidableEq

/-- The sort key tuple of `search_papers_by_title`:
`(query_lower not in title.lower().split()[0:3],
  -len([w for w in query_lower.split() if w in title.lower()]),
  published)`. -/
def titleSortKey (queryLower : String) (x : TitleHit) : Bool × Int × String :=
  (!(((pySplit (pyLower x.title)).take 3).contains queryLower),
    -(((pySplit queryLower).filter
        (fun w => containsSub w.data (pyLower x.title).data)).length : Int),
    x.published)

/-- Python tuple order on the sort key (`bool` with `False < True`,
then `int`, then string). -/
def keyLE (x y : Bool × Int × String) : Prop :=
  (!x.1 && y.1) = true ∨
    (x.1 = y.1 ∧ (x.2.1 < y.2.1 ∨ (x.2.1 = y.2.1 ∧ x.2.2 ≤ y.2.2)))

instance : DecidableRel keyLE := fun x y => by
  unfold keyLE; infer_instance

/-- `list.sort(key=..., reverse=True)` orders by descending key; ties
keep their original relative order (Python's sort is stable), which is
exactly `List.insertionSort` with the relation `key y ≤ key x`. -/
def titleSortRel (queryLower : String) (x y : TitleHit) : Prop :=
  keyLE (titleSortKey queryLower y) (titleSortKey queryLower x)

instance (q : String) : DecidableRel (titleSortRel q) := fun x y => by
  unfold titleSortRel; infer_instance

/-- `PaperInfoTool.search_papers_by_title`: case-insensitive substring
match of the trimmed query over all stored titles, then the
`reverse=True` sort on the key tuple above. -/
def searchPapersByTitle (store : List DirEntry) (titleQuery : String) : List TitleHit :=
  let queryLower := pyStrip (pyLower titleQuery)
  let matching := ((listAllTopics store).map (fun topic =>
    (storeLoad store topic).papers.filterMap (fun kv =>
      if containsSub queryLower.data (pyLower kv.2.title).data then
        some { id := kv.1
               title := kv.2.title
               authors := kv.2.authors.map Author.name
               published := kv.2.published
               topic := topic
               category := kv.2.category }
      else none))).flatten
  matching.insertionSort (titleSortRel queryLower)

/-- The result shape of `PaperInfoTool.get_database_stats`.
`generated_at` is absent from the degraded (error) payload. -/
structure DatabaseStats where
  total_topics : Nat
  total_papers : Nat
  topics : List TopicStats
  generated_at : Option String
  error : Option String
deriving Repr, DecidableEq

/-- The descending-count order used for the per-topic stats
(`topic_stats.sort(key=lambda x: x["paper_count"], reverse=True)`). -/
def statsSortRel (x y : TopicStats) : Prop :=
  y.paper_count ≤ x.paper_count

instance : DecidableRel statsSortRel := fun x y => by
  unfold statsSortRel; infer_instance

/-- `PaperInfoTool.get_database_stats`: list the topics, sum their
per-topic counts, sort the stats by count descending, stamp the
generation time.  The surrounding `try`/`except` turns any internal
failure (the `Except.error` input) into the degraded payload. -/
def getDatabaseStats (inp : Except String (List DirEntry)) (now : String) : DatabaseStats :=
  match inp with
  | Except.error e =>
    { total_topics := 0, total_papers := 0, topics := [], generated_at := none,
      error := some e }
  | Except.ok store =>
    let topics := listAllTopics store
    let topicStats := topics.map (getTopicStats store)
    let totalPapers := (topicStats.map (fun s => s.paper_count)).sum
    { total_topics := topics.length
      total_papers := totalPapers
      topics := topicStats.insertionSort statsSortRel
      generated_at := some now
      error := none }

/-- The year component of an ISO date string (`published.year`,
rendered back to a string by the f-string template). -/
def isoYear (published : String) : String :=
  ⟨published.data.takeWhile (fun c => !(c == '-'))⟩

/-- The `"bibtex"` branch of `PaperInfoTool.export_paper_data`: the
fixed citation template.  (Literal braces are written with their
escapes.) -/
def exportBibtex (p : PaperInfo) : String :=
  "@article\x7b" ++ p.paper_id ++ ",\n  title=\x7b" ++ p.title ++
    "\x7d,\n  author=\x7b" ++ String.intercalate " and " (p.authors.map Author.name) ++
    "\x7d,\n  year=\x7b" ++ isoYear p.published ++
    "\x7d,\n  journal=\x7barXiv preprint arXiv:" ++ p.paper_id ++
    "\x7d,\n  url=\x7b" ++ p.pdf_url ++ "\x7d\n\x7d"

/-- The fixed text before the first identifier slot of the citation
template. -/
def bibtexCtxA : String := "@article\x7b"

/-- The text between the two identifier slots of the citation template
(title, author and year fields). -/
def bibtexCtxB (p : PaperInfo) : String :=
  ",\n  title=\x7b" ++ p.title ++ "\x7d,\n  author=\x7b" ++
    String.intercalate " and " (p.authors.map Author.name) ++
    "\x7d,\n  year=\x7b" ++ isoYear p.published ++
    "\x7d,\n  journal=\x7barXiv preprint arXiv:"

/-- The fixed-plus-URL text after the second identifier slot of the
citation template. -/
def bibtexCtxC (p : PaperInfo) : String :=
  "\x7d,\n  url=\x7b" ++ p.pdf_url ++ "\x7d\n\x7d"

/-! ### ArXiv search tool (`tools/arxiv_search.py`) -/

/-- The candidate-processing loop of `ArxivSearchTool.search_papers`:
insert each candidate only if its identifier is not already a key of
the (mutating) collection, counting the additions. -/
def upsertFromSearch (db : PaperDatabase) (cands : List PaperInfo) : PaperDatabase × Nat :=
  cands.foldl
    (fun acc paper =>
      if acc.1.hasPaper paper.paper_id then acc
      else (acc.1.addPaper paper, acc.2 + 1))
    (db, 0)

/-- One run of `ArxivSearchTool.search_papers` with a given candidate
list: validate/trim the topic (`SearchRequest`), load the topic's
collection, upsert the candidates, save once.  Returns the updated
directory tree and the number of new records. -/
def searchPapersRun (store : List DirEntry) (topic : String) (cands : List PaperInfo)
    (now : String) : List DirEntry × Nat :=
  let t := pyStrip topic
  let db := storeLoad store t
  let r := upsertFromSearch db cands
  ((applySave store t r.1 now).1, r.2)

/-! ### Dictionary lemmas -/

theorem find?_map_overwrite (m : List (String × α)) (k : String) (v : α)
    (h : m.any (fun kv => kv.1 == k) = true) :
    (m.map (fun kv => if kv.1 == k then (k, v) else kv)).find? (fun kv => kv.1 == k) =
      some (k, v) := by
  induction m with
  | nil => simp at h
  | cons kv rest ih =>
    rw [List.map_cons]
    by_cases hk : kv.1 = k
    · have hif : (if kv.1 == k then (k, v) else kv) = (k, v) := by simp [hk]
      rw [hif, List.find?_cons_of_pos _ (by simp)]
    · have hif : (if kv.1 == k then (k, v) else kv) = kv := by simp [hk]
      have hrest : rest.any (fun kv => kv.1 == k) = true := by
        rcases List.any_eq_true.mp h with ⟨x, hx, hpx⟩
        rcases List.mem_cons.mp hx with rfl | hx2
        · exact absurd (by simpa using hpx) hk
        · exact List.any_eq_true.mpr ⟨x, hx2, hpx⟩
      rw [hif, List.find?_cons_of_neg _ (by simp [hk])]
      exact ih hrest

theorem dictGet_insert_self (m : List (String × α)) (k : String) (v : α) :
    dictGet (dictInsert m k v) k = some v := by
  unfold dictInsert
  by_cases h : m.any (fun kv => kv.1 == k) = true
  · rw [if_pos h]
    unfold dictGet
    rw [find?_map_overwrite m k v h]
    rfl
  · rw [if_neg h]
    unfold dictGet
    have hfind : m.find? (fun kv => kv.1 == k) = none := by
      rw [List.find?_eq_none]
      intro x hx
      exact fun hp => h (List.any_eq_true.mpr ⟨x, hx, hp⟩)
    rw [List.find?_append, hfind, Option.none_or, List.find?_cons_of_pos _ (by simp)]
    rfl

theorem find?_map_overwrite_ne (m : List (String × α)) (k k2 : String) (v : α)
    (hne : ¬ k2 = k) :
    (m.map (fun kv => if kv.1 == k then (k, v) else kv)).find? (fun kv => kv.1 == k2) =
      m.find? (fun kv => kv.1 == k2) := by
  induction m with
  | nil => rfl
  | cons kv rest ih =>
    rw [List.map_cons]
    by_cases hk : kv.1 = k
    · have hif : (if kv.1 == k then (k, v) else kv) = (k, v) := by simp [hk]
      have hkv2 : ¬ kv.1 = k2 := by rw [hk]; exact fun hh => hne hh.symm
      rw [hif, List.find?_cons_of_neg _ (by simp only [beq_iff_eq]; exact fun hh => hne hh.symm),
        List.find?_cons_of_neg _ (by simp [hkv2])]
      exact ih
    · have hif : (if kv.1 == k then (k, v) else kv) = kv := by simp [hk]
      rw [hif]
      by_cases h2 : kv.1 = k2
      · rw [List.find?_cons_of_pos _ (by simp [h2]), List.find?_cons_of_pos _ (by simp [h2])]
      · rw [List.find?_cons_of_neg _ (by simp [h2]), List.find?_cons_of_neg _ (by simp [h2])]
        exact ih

theorem dictGet_insert_ne (m : List (String × α)) (k k2 : String) (v : α)
    (hne : ¬ k2 = k) :
    dictGet (dictInsert m k v) k2 = dictGet m k2 := by
  unfold dictInsert dictGet
  by_cases h : m.any (fun kv => kv.1 == k) = true
  · rw [if_pos h, find?_map_overwrite_ne m k k2 v hne]
  · rw [if_neg h, List.find?_append]
    have : List.find? (fun kv => kv.1 == k2) [(k, v)] = none := by
      rw [List.find?_eq_none]
      intro x hx
      rcases List.mem_singleton.mp hx with rfl
      simp only [beq_iff_eq]
      exact fun hh => hne hh.symm
    rw [this, Option.or_none]

theorem dictInsert_fresh (m : List (String × α)) (k : String) (v : α)
    (h : dictHas m k = false) : dictInsert m k v = m ++ [(k, v)] := by
  unfold dictInsert
  unfold dictHas at h
  rw [if_neg (by rw [h]; exact Bool.false_ne_true)]

theorem dictHas_insert_self (m : List (String × α)) (k : String) (v : α) :
    dictHas (dictInsert m k v) k = true := by
  unfold dictInsert dictHas
  by_cases h : m.any (fun kv => kv.1 == k) = true
  · rw [if_pos h, List.any_map]
    rcases List.any_eq_true.mp h with ⟨kv, hkv, hp⟩
    have hk : kv.1 = k := by simpa using hp
    exact List.any_eq_true.mpr ⟨kv, hkv, by simp [Function.comp, hk]⟩
  · rw [if_neg h, List.any_append]
    simp

theorem dictHas_insert_mono (m : List (String × α)) (k k2 : String) (v : α)
    (h : dictHas m k2 = true) : dictHas (dictInsert m k v) k2 = true := by
  unfold dictInsert dictHas
  unfold dictHas at h
  by_cases hany : m.any (fun kv => kv.1 == k) = true
  · rw [if_pos hany, List.any_map]
    rcases List.any_eq_true.mp h with ⟨kv, hkv, hp⟩
    have hk2 : kv.1 = k2 := by simpa using hp
    refine List.any_eq_true.mpr ⟨kv, hkv, ?_⟩
    simp only [Function.comp_apply]
    by_cases hkk : kv.1 = k
    · have hkeq : k = k2 := by rw [← hkk, hk2]
      have hif : (if kv.1 == k then (k, v) else kv) = (k, v) := by simp [hkk]
      rw [hif]
      simp [hkeq]
    · have hif : (if kv.1 == k then (k, v) else kv) = kv := by simp [hkk]
      rw [hif]
      simp [hk2]
  · rw [if_neg hany, List.any_append, h]
    simp

theorem dictGet_append_left (m : List (String × α)) (k2 : String) (e : String × α)
    (v2 : α) (hget : dictGet m k2 = some v2) :
    dictGet (m ++ [e]) k2 = some v2 := by
  unfold dictGet at hget ⊢
  rw [List.find?_append]
  cases hfm : m.find? (fun kv => kv.1 == k2) with
  | none => rw [hfm] at hget; simp at hget
  | some kv =>
    rw [hfm] at hget
    simpa [Option.or] using hget

/-! ### Load-path lemmas and claims C4, C9 -/

/-- An `authors` field that is an empty list (in either accepted
shape). -/
def authorsEmpty : AuthorsJson → Bool
  | AuthorsJson.strs [] => true
  | AuthorsJson.objs [] => true
  | AuthorsJson.strs (_ :: _) => false
  | AuthorsJson.objs (_ :: _) => false

theorem fromDict_error_of_authorsEmpty (d : RawPaper)
    (h : authorsEmpty d.authors = true) :
    PaperInfo.fromDict d = Except.error "IndexError: list index out of range" := by
  unfold PaperInfo.fromDict
  cases ha : d.authors with
  | strs ns => cases ns with
    | nil => rfl
    | cons n ns => rw [ha] at h; simp [authorsEmpty] at h
  | objs ns => cases ns with
    | nil => rfl
    | cons n ns => rw [ha] at h; simp [authorsEmpty] at h

theorem foldlM_fromDict_error (data : List (String × RawPaper))
    (acc : List (String × PaperInfo))
    (h : ∃ kv ∈ data, authorsEmpty kv.2.authors = true) :
    ∃ e, (data.foldlM
      (fun acc kv => do
        let p ← PaperInfo.fromDict kv.2
        pure (dictInsert acc kv.1 p))
      acc : Except String (List (String × PaperInfo))) = Except.error e := by
  induction data generalizing acc with
  | nil => rcases h with ⟨kv, hkv, _⟩; exact absurd hkv (List.not_mem_nil kv)
  | cons kv rest ih =>
    rcases h with ⟨bad, hbad, hempty⟩
    rcases List.mem_cons.mp hbad with rfl | hrest
    · refine ⟨"IndexError: list index out of range", ?_⟩
      rw [List.foldlM_cons]
      rw [show PaperInfo.fromDict bad.2 = Except.error "IndexError: list index out of range"
        from fromDict_error_of_authorsEmpty bad.2 hempty]
      rfl
    · rw [List.foldlM_cons]
      cases hd : PaperInfo.fromDict kv.2 with
      | error e => exact ⟨e, rfl⟩
      | ok p =>
        rcases ih (dictInsert acc kv.1 p) ⟨bad, hrest, hempty⟩ with ⟨e, he⟩
        exact ⟨e, by simpa using he⟩

theorem fromJsonDict_error_of_authorsEmpty (data : List (String × RawPaper))
    (h : ∃ kv ∈ data, authorsEmpty kv.2.authors = true) :
    ∃ e, PaperDatabase.fromJsonDict data = Except.error e := by
  unfold PaperDatabase.fromJsonDict
  rcases foldlM_fromDict_error data [] h with ⟨e, he⟩
  exact ⟨e, by rw [he]; rfl⟩

/-- C4: for every topic, `load` never raises: a missing collection
file, a file that is not JSON, and a file whose JSON contents fail to
deserialize into the expected shape all yield the empty
`PaperDatabase` (empty paper mapping, empty metadata) instead of a
propagated fault.  (`loadPapersDatabase` is a total function of the
file state; the last conjunct covers every fault that escapes
`load_from_file`.) -/
theorem C4_load_self_healing (fs : FileState) :
    loadPapersDatabase FileState.missing = PaperDatabase.empty ∧
    loadPapersDatabase FileState.notJson = PaperDatabase.empty ∧
    (∀ e, PaperDatabase.loadFromFile fs = Except.error e →
      loadPapersDatabase fs = PaperDatabase.empty) := by
  refine ⟨rfl, rfl, fun e h => ?_⟩
  unfold loadPapersDatabase
  rw [h]

/-- A collection file that parses as JSON but whose single record has
an empty author list. -/
def fileOnlyBadAuthors : FileState :=
  FileState.json
    [("2401.0001",
      { paper_id := "2401.0001", title := "T", authors := AuthorsJson.strs [],
        summary := "S", pdf_url := "http://example.org/a.pdf",
        published := "2024-01-01", category := none, updated := none, doi := none })]

/-- Witness for C4 at a concrete corrupt file: `load_from_file` raises
(an `IndexError`), and `load` degrades to the empty collection. -/
theorem C4_load_self_healing_witness :
    loadPapersDatabase fileOnlyBadAuthors = PaperDatabase.empty :=
  (C4_load_self_healing fileOnlyBadAuthors).2.2 "IndexError: list index out of range" (by rfl)

/-- C9: if a topic's collection file parses as JSON but contains at
least one record whose `authors` field is an empty list (of either
accepted shape), then loading that topic returns the empty collection:
the first-element shape sniff faults, the fault aborts deserialization
of the whole file, and every record of the topic is dropped. -/
theorem C9_empty_authors_poison_whole_file (data : List (String × RawPaper))
    (h : ∃ kv ∈ data, authorsEmpty kv.2.authors = true) :
    loadPapersDatabase (FileState.json data) = PaperDatabase.empty := by
  rcases fromJsonDict_error_of_authorsEmpty data h with ⟨e, he⟩
  have hload : PaperDatabase.loadFromFile (FileState.json data) = Except.error e := he
  unfold loadPapersDatabase
  rw [hload]

/-- A well-formed record alongside a record with an empty author list. -/
def fileMixedAuthors : FileState :=
  FileState.json
    [("2401.0002",
      { paper_id := "2401.0002", title := "Good paper", authors := AuthorsJson.strs ["Ann A"],
        summary := "S", pdf_url := "http://example.org/b.pdf",
        published := "2024-02-01", category := some "cs.LG", updated := none, doi := none }),
     ("2401.0003",
      { paper_id := "2401.0003", title := "Broken paper", authors := AuthorsJson.objs [],
        summary := "S", pdf_url := "http://example.org/c.pdf",
        published := "2024-03-01", category := none, updated := none, doi := none })]

/-- Witness for C9: a file holding one well-formed record and one
empty-author record loads as the empty collection — the well-formed
record is dropped too. -/
theorem C9_empty_authors_poison_whole_file_witness :
    loadPapersDatabase fileMixedAuthors = PaperDatabase.empty := by
  refine C9_empty_authors_poison_whole_file _ ?_
  refine ⟨("2401.0003",
    { paper_id := "2401.0003", title := "Broken paper", authors := AuthorsJson.objs [],
      summary := "S", pdf_url := "http://example.org/c.pdf",
      published := "2024-03-01", category := none, updated := none, doi := none }), ?_, rfl⟩
  simp [fileMixedAuthors]

/-! ### Claims C2 and C3 -/

/-- C2 (code bug): the Topic Namer is deterministic and pure and
follows the stated pipeline, and it maps `"  a   b  "` to `"a_b"`; but
on `"Machine Learning & AI"` the code produces
`"machine_learning_&_ai"`, not the `"machine_learning_ai"` required by
the claim (and by the repository's own `test_sanitize_filename`),
because `'&'` is not among the characters it strips. -/
theorem C2_sanitize_ampersand_bug :
    sanitizeFilename "  a   b  " = "a_b" ∧
    sanitizeFilename "Machine Learning & AI" = "machine_learning_&_ai" ∧
    ¬ sanitizeFilename "Machine Learning & AI" = "machine_learning_ai" := by
  refine ⟨by decide, by decide, by decide⟩

/-- A stored record whose title carries the query within its first
three words. -/
def rawNeural : RawPaper :=
  { paper_id := "2401.1", title := "Neural Networks for X",
    authors := AuthorsJson.strs ["Ann A"], summary := "S",
    pdf_url := "http://example.org/1.pdf", published := "2024-01-01",
    category := some "cs.LG", updated := none, doi := none }

/-- A stored record whose title carries the query only after its first
three words. -/
def rawStudy : RawPaper :=
  { paper_id := "2301.2", title := "A Study Involving Neural Methods",
    authors := AuthorsJson.strs ["Bob B"], summary := "S",
    pdf_url := "http://example.org/2.pdf", published := "2023-01-01",
    category := none, updated := none, doi := none }

/-- One topic directory holding the two test records. -/
def storeTitleSearch : List DirEntry :=
  [⟨"test", true, FileState.json [("2401.1", rawNeural), ("2301.2", rawStudy)]⟩]

/-- C3 (code bug): with both titles containing `"neural"` once, the
code ranks `"A Study Involving Neural Methods"` ABOVE
`"Neural Networks for X"` — the opposite of the claim.  `reverse=True`
inverts the first-three-words boost (and the matching-word count) that
the code's own comments say should rank first; only the newest-first
date tiebreak comes out as documented. -/
theorem C3_title_ranking_inverted :
    (searchPapersByTitle storeTitleSearch "neural").map (fun h => h.title) =
      ["A Study Involving Neural Methods", "Neural Networks for X"] ∧
    titleSortKey "neural"
        ⟨"2401.1", "Neural Networks for X", ["Ann A"], "2024-01-01", "Test", some "cs.LG"⟩ =
      (false, -1, "2024-01-01") ∧
    titleSortKey "neural"
        ⟨"2301.2", "A Study Involving Neural Methods", ["Bob B"], "2023-01-01", "Test", none⟩ =
      (true, -1, "2023-01-01") := by
  refine ⟨by decide, by decide, by decide⟩

/-! ### Claim C5: save -/

/-- C5 counterexample fixture: one stored record. -/
def paperT : PaperInfo :=
  { paper_id := "2401.9", title := "T", authors := [⟨"Ann A"⟩],
    summary := "S", pdf_url := "http://example.org/9.pdf", published := "2024-04-01",
    category := none, updated := none, doi := none }

/-- C5 counterexample fixture: a collection holding one record. -/
def dbOnePaper : PaperDatabase :=
  ⟨[("2401.9", paperT)], []⟩

/-- C5 counterexample: `save` does set the in-memory metadata, but the
persisted file content is exactly the serialized paper mapping — its
only top-level key is the paper id, and no metadata (no last-write
timestamp, topic, or count) is written alongside the records, contrary
to the claim's final conjunct. -/
theorem C5_metadata_not_persisted :
    dictGet (savePapersDatabase "quantum computing" dbOnePaper
        "2024-05-01T10:00:00").1.metadata "last_updated" =
      some (MetaValue.str "2024-05-01T10:00:00") ∧
    (savePapersDatabase "quantum computing" dbOnePaper "2024-05-01T10:00:00").2.1 =
      FileState.json [("2401.9", paperT.toDict)] ∧
    ∀ data, (savePapersDatabase "quantum computing" dbOnePaper
        "2024-05-01T10:00:00").2.1 = FileState.json data →
      dictKeys data = ["2401.9"] := by
  refine ⟨by decide, by decide, ?_⟩
  intro data hdata
  have h2 := hdata.symm.trans (rfl :
    (savePapersDatabase "quantum computing" dbOnePaper "2024-05-01T10:00:00").2.1 =
      FileState.json [("2401.9", paperT.toDict)])
  rw [(FileState.json.injEq _ _).mp h2]
  rfl

/-- C5 (amended): for every topic, collection and timestamp, `save`
ensures the topic directory exists, sets the in-memory metadata to the
last-write timestamp, the topic name and the record count, overwrites
the topic's collection file with the serialization of the record
mapping ONLY (the metadata is not written to the file), leaves the
record mapping untouched, and returns the collection file's path. -/
theorem C5_save_contract (topic : String) (db : PaperDatabase) (now : String) :
    dictGet (savePapersDatabase topic db now).1.metadata "last_updated" =
      some (MetaValue.str now) ∧
    dictGet (savePapersDatabase topic db now).1.metadata "topic" =
      some (MetaValue.str topic) ∧
    dictGet (savePapersDatabase topic db now).1.metadata "paper_count" =
      some (MetaValue.nat db.papers.length) ∧
    (savePapersDatabase topic db now).1.papers = db.papers ∧
    (savePapersDatabase topic db now).2.1 =
      FileState.json (db.papers.map (fun kv => (kv.1, kv.2.toDict))) ∧
    (savePapersDatabase topic db now).2.2 = sanitizeFilename topic ++ "/papers_info.json" ∧
    ∀ store, ((applySave store topic db now).1.any
      (fun d => d.isDir && (d.name == sanitizeFilename topic))) = true := by
  refine ⟨?_, ?_, ?_, rfl, rfl, rfl, ?_⟩
  · rw [show (savePapersDatabase topic db now).1.metadata =
        dictInsert (dictInsert (dictInsert db.metadata "last_updated" (MetaValue.str now))
          "topic" (MetaValue.str topic)) "paper_count" (MetaValue.nat db.papers.length)
      from rfl]
    rw [dictGet_insert_ne _ _ _ _ (by decide), dictGet_insert_ne _ _ _ _ (by decide),
      dictGet_insert_self]
  · rw [show (savePapersDatabase topic db now).1.metadata =
        dictInsert (dictInsert (dictInsert db.metadata "last_updated" (MetaValue.str now))
          "topic" (MetaValue.str topic)) "paper_count" (MetaValue.nat db.papers.length)
      from rfl]
    rw [dictGet_insert_ne _ _ _ _ (by decide), dictGet_insert_self]
  · rw [show (savePapersDatabase topic db now).1.metadata =
        dictInsert (dictInsert (dictInsert db.metadata "last_updated" (MetaValue.str now))
          "topic" (MetaValue.str topic)) "paper_count" (MetaValue.nat db.papers.length)
      from rfl]
    rw [dictGet_insert_self]
  · intro store
    unfold applySave
    by_cases h : store.any (fun d => d.isDir && (d.name == sanitizeFilename topic)) = true
    · rw [if_pos h]
      rcases List.any_eq_true.mp h with ⟨d, hd, hp⟩
      refine List.any_eq_true.mpr ?_
      refine ⟨⟨sanitizeFilename topic, true, (savePapersDatabase topic db now).2.1⟩,
        List.mem_map.mpr ⟨d, hd, by rw [if_pos hp]⟩, by simp⟩
    · rw [if_neg h]
      refine List.any_eq_true.mpr
        ⟨⟨sanitizeFilename topic, true, (savePapersDatabase topic db now).2.1⟩,
          List.mem_append_right _ (List.mem_singleton.mpr rfl), by simp⟩

/-- Witness for the amended C5 at a concrete save. -/
theorem C5_save_contract_witness :
    dictGet (savePapersDatabase "quantum computing" dbOnePaper
        "2024-05-01T10:00:00").1.metadata "topic" = some (MetaValue.str "quantum computing") ∧
    (savePapersDatabase "quantum computing" dbOnePaper "2024-05-01T10:00:00").2.2 =
      "quantum_computing/papers_info.json" :=
  ⟨(C5_save_contract "quantum computing" dbOnePaper "2024-05-01T10:00:00").2.1,
    by
      rw [(C5_save_contract "quantum computing" dbOnePaper "2024-05-01T10:00:00").2.2.2.2.2.1]
      decide⟩

/-! ### Claim C6: cross-topic lookup -/

/-- What one directory entry contributes to the cross-topic scan: its
record for `pid`, provided the entry is a directory, its collection
file exists, and the file loads (load errors degrade to the empty
collection and are thereby skipped). -/
def effectiveLookup (d : DirEntry) (pid : String) : Option PaperInfo :=
  if d.isDir && !(d.file == FileState.missing) then
    (loadPapersDatabase d.file).getPaper pid
  else none

/-- C6 (amended): `findById` returns the record for the identifier
from the FIRST directory in scan order whose collection file is
readable and contains it — non-directories, directories without a
collection file, and unreadable files are skipped, the scan continues
past per-file errors, and an identifier present in no readable topic
yields `none` (not-found), never a fault. -/
theorem C6_find_first_match (store : List DirEntry) (pid : String) :
    findPaperAcrossTopics store pid =
      (store.filterMap (fun d => effectiveLookup d pid)).head? := by
  induction store with
  | nil => rfl
  | cons d rest ih =>
    unfold findPaperAcrossTopics
    by_cases hdir : d.isDir = true
    · by_cases hmiss : d.file = FileState.missing
      · have h1 : (!d.isDir) = false := by rw [hdir]; rfl
        have h2 : (d.file == FileState.missing) = true := by
          rw [hmiss]; exact beq_self_eq_true _
        rw [h1, if_neg (by simp), if_pos (by rw [h2])]
        have heff : effectiveLookup d pid = none := by
          unfold effectiveLookup
          rw [if_neg (by rw [h2]; simp)]
        rw [List.filterMap_cons, heff]
        exact ih
      · have h1 : (!d.isDir) = false := by rw [hdir]; rfl
        have h2 : (d.file == FileState.missing) = false := beq_false_of_ne hmiss
        rw [h1, if_neg (by simp), if_neg (by rw [h2]; simp)]
        have heff : effectiveLookup d pid = (loadPapersDatabase d.file).getPaper pid := by
          unfold effectiveLookup
          rw [if_pos (by rw [hdir, h2]; rfl)]
        rw [List.filterMap_cons, heff]
        split
        next e hload =>
          have hnone : (loadPapersDatabase d.file).getPaper pid = none := by
            unfold loadPapersDatabase
            rw [hload]
            rfl
          rw [hnone]
          exact ih
        next db hload =>
          have hdbeq : loadPapersDatabase d.file = db := by
            unfold loadPapersDatabase
            rw [hload]
          rw [hdbeq]
          split
          next p hget =>
            rw [hget]
            rfl
          next hget =>
            rw [hget]
            exact ih
    · have h1 : (!d.isDir) = true := by
        rw [Bool.eq_false_iff.mpr hdir]; rfl
      rw [if_pos (by rw [h1])]
      have heff : effectiveLookup d pid = none := by
        unfold effectiveLookup
        rw [if_neg (by rw [Bool.eq_false_iff.mpr hdir]; simp)]
      rw [List.filterMap_cons, heff]
      exact ih

/-- An earlier-created topic holding record "X" with title "Old". -/
def paperOldX : PaperInfo :=
  { paper_id := "X", title := "Old", authors := [⟨"Ann A"⟩], summary := "S",
    pdf_url := "http://example.org/x.pdf", published := "2020-01-01",
    category := none, updated := none, doi := none }

/-- A later save stores record "X" with title "New" under a different
topic. -/
def paperNewX : PaperInfo :=
  { paper_id := "X", title := "New", authors := [⟨"Ann A"⟩], summary := "S",
    pdf_url := "http://example.org/x.pdf", published := "2021-01-01",
    category := none, updated := none, doi := none }

/-- The directory tree after saving "X" (title "Old") under topic
`btopic` and then — the most recent successful save for "X" — saving
"X" (title "New") under topic `atopic`. -/
def storeTwoSaves : List DirEntry :=
  (applySave (applySave [] "btopic" ⟨[("X", paperOldX)], []⟩ "2024-01-01T00:00:00").1
    "atopic" ⟨[("X", paperNewX)], []⟩ "2024-01-02T00:00:00").1

/-- C6 counterexample: identifier "X" was last saved (successfully)
with title "New" under `atopic`, but `findById` returns the title-"Old"
record from `btopic`, the first directory in scan order — so the claim
that the most recent save wins regardless of topic is false. -/
theorem C6_find_not_most_recent :
    (findPaperAcrossTopics storeTwoSaves "X").map (fun p => p.title) = some "Old" ∧
    ((⟨[("X", paperNewX)], []⟩ : PaperDatabase).getPaper "X").map (fun p => p.title) =
      some "New" ∧
    ¬ (findPaperAcrossTopics storeTwoSaves "X").map (fun p => p.title) = some "New" := by
  refine ⟨by decide, by decide, by decide⟩

/-! ### Occurrence counting (claim C7) -/

theorem countOccs_cons (pat : List Char) (c : Char) (cs : List Char) :
    countOccs pat (c :: cs) =
      (if pat.isPrefixOf (c :: cs) then 1 else 0) + countOccs pat cs := rfl

theorem isPrefixOf_false_of_short (pat s : List Char) (h : s.length < pat.length) :
    pat.isPrefixOf s = false := by
  cases hp : pat.isPrefixOf s
  · rfl
  · exact absurd (List.isPrefixOf_iff_prefix.mp hp).length_le (by omega)

theorem countOccs_nil_of_ne (pat : List Char) (hpat : pat ≠ []) :
    countOccs pat [] = 0 := by
  unfold countOccs
  rw [isPrefixOf_false_of_short pat []
    (by simpa using List.length_pos.mpr hpat)]
  rfl

theorem countOccs_eq_zero_of_short (pat s : List Char) (h : s.length < pat.length) :
    countOccs pat s = 0 := by
  induction s with
  | nil =>
    refine countOccs_nil_of_ne pat ?_
    intro he
    rw [he] at h
    simp at h
  | cons c cs ih =>
    rw [countOccs_cons, isPrefixOf_false_of_short pat (c :: cs) h]
    have hcs : cs.length < pat.length := by
      have : (c :: cs).length = cs.length + 1 := rfl
      omega
    rw [ih hcs]
    rfl

theorem countOccs_self (pat : List Char) (hpat : pat ≠ []) :
    countOccs pat pat = 1 := by
  cases pat with
  | nil => exact absurd rfl hpat
  | cons c cs =>
    rw [countOccs_cons,
      if_pos (List.isPrefixOf_iff_prefix.mpr (List.prefix_refl _)),
      countOccs_eq_zero_of_short (c :: cs) cs (by simp)]

theorem countOccs_append (pat a b : List Char) (hpat : pat ≠ [])
    (hns : ∀ i, i < a.length → pat.isPrefixOf ((a ++ b).drop i) = true →
      i + pat.length ≤ a.length) :
    countOccs pat (a ++ b) = countOccs pat a + countOccs pat b := by
  induction a with
  | nil => rw [List.nil_append, countOccs_nil_of_ne pat hpat, Nat.zero_add]
  | cons c a2 ih =>
    have hshift : ∀ i, i < a2.length → pat.isPrefixOf ((a2 ++ b).drop i) = true →
        i + pat.length ≤ a2.length := by
      intro i hi hp
      have h2 := hns (i + 1) (by simpa using Nat.succ_lt_succ hi) (by simpa using hp)
      have hlen : (c :: a2).length = a2.length + 1 := rfl
      omega
    have hcond : pat.isPrefixOf (c :: (a2 ++ b)) = pat.isPrefixOf (c :: a2) := by
      cases hp : pat.isPrefixOf (c :: (a2 ++ b)) with
      | true =>
        have hle : pat.length ≤ (c :: a2).length := by
          have h0 := hns 0 (by simp) (by simpa using hp)
          simpa using h0
        have h3 := List.prefix_iff_eq_take.mp (List.isPrefixOf_iff_prefix.mp hp)
        rw [← List.cons_append, List.take_append_of_le_length hle] at h3
        exact (List.isPrefixOf_iff_prefix.mpr (List.prefix_iff_eq_take.mpr h3)).symm
      | false =>
        cases hq : pat.isPrefixOf (c :: a2) with
        | false => rfl
        | true =>
          have h4 : pat <+: c :: (a2 ++ b) := by
            rw [← List.cons_append]
            exact (List.isPrefixOf_iff_prefix.mp hq).trans (List.prefix_append _ _)
          rw [List.isPrefixOf_iff_prefix.mpr h4] at hp
          cases hp
    rw [List.cons_append, countOccs_cons, countOccs_cons, ih hshift, hcond,
      Nat.add_assoc]

/-- If an occurrence of `pat` starting inside `a` reaches past the end
of `a` in `a ++ c :: t`, then the boundary character `c` belongs to
`pat`. -/
theorem boundary_mem_of_straddle (pat a t : List Char) (c : Char) (i : Nat)
    (hpre : pat.isPrefixOf ((a ++ c :: t).drop i) = true)
    (hia : i ≤ a.length) (hstr : a.length < i + pat.length) : c ∈ pat := by
  have heq := List.prefix_iff_eq_take.mp (List.isPrefixOf_iff_prefix.mp hpre)
  rw [List.drop_append_of_le_length hia, List.take_append_eq_append_take] at heq
  rw [heq]
  refine List.mem_append.mpr (Or.inr ?_)
  cases hn : pat.length - (List.drop i a).length with
  | zero =>
    rw [List.length_drop] at hn
    omega
  | succ m =>
    rw [List.take_succ_cons]
    exact List.mem_cons_self _ _

/-- Splitting an occurrence count at a boundary whose right-hand side
starts with a character not in the pattern. -/
theorem countOccs_append_boundary_right (pat a t : List Char) (c : Char)
    (hpat : pat ≠ []) (hc : c ∉ pat) :
    countOccs pat (a ++ c :: t) = countOccs pat a + countOccs pat (c :: t) := by
  refine countOccs_append pat a (c :: t) hpat ?_
  intro i hi hp
  by_cases hle : i + pat.length ≤ a.length
  · exact hle
  · exact absurd (boundary_mem_of_straddle pat a t c i hp (Nat.le_of_lt hi)
      (by omega)) hc

/-- Splitting an occurrence count at a boundary whose left-hand side
ends with a character not in the pattern. -/
theorem countOccs_append_boundary_left (pat a0 b : List Char) (c : Char)
    (hpat : pat ≠ []) (hc : c ∉ pat) :
    countOccs pat ((a0 ++ [c]) ++ b) = countOccs pat (a0 ++ [c]) + countOccs pat b := by
  refine countOccs_append pat (a0 ++ [c]) b hpat ?_
  intro i hi hp
  by_cases hle : i + pat.length ≤ (a0 ++ [c]).length
  · exact hle
  · have hlen : (a0 ++ [c]).length = a0.length + 1 := by simp
    have hp2 : pat.isPrefixOf ((a0 ++ c :: b).drop i) = true := by
      have : (a0 ++ [c]) ++ b = a0 ++ c :: b := by simp
      rw [← this]
      exact hp
    exact absurd (boundary_mem_of_straddle pat a0 b c i hp2 (by omega) (by omega)) hc

/-- Generic shape of the citation template: a pattern occurring at two
slots, each slot fenced by characters outside the pattern, with the
pattern absent from the three context pieces, occurs exactly twice. -/
theorem countOccs_two_slots (pat A0 B0 C0 : List Char) (ca cb1 cb2 cc : Char)
    (hpat : pat ≠ []) (hca : ca ∉ pat) (hcb1 : cb1 ∉ pat) (hcb2 : cb2 ∉ pat)
    (hcc : cc ∉ pat)
    (hA : countOccs pat (A0 ++ [ca]) = 0)
    (hB : countOccs pat (cb1 :: (B0 ++ [cb2])) = 0)
    (hC : countOccs pat (cc :: C0) = 0) :
    countOccs pat
      ((A0 ++ [ca]) ++ (pat ++ (cb1 :: ((B0 ++ [cb2]) ++ (pat ++ (cc :: C0)))))) = 2 := by
  have s4 : countOccs pat (pat ++ (cc :: C0)) = 1 + countOccs pat (cc :: C0) := by
    rw [countOccs_append_boundary_right pat pat C0 cc hpat hcc, countOccs_self pat hpat]
  have s3 : countOccs pat (cb1 :: ((B0 ++ [cb2]) ++ (pat ++ (cc :: C0)))) =
      countOccs pat (cb1 :: (B0 ++ [cb2])) + countOccs pat (pat ++ (cc :: C0)) := by
    have hshape : cb1 :: ((B0 ++ [cb2]) ++ (pat ++ (cc :: C0))) =
        ((cb1 :: B0) ++ [cb2]) ++ (pat ++ (cc :: C0)) := by simp
    rw [hshape,
      countOccs_append_boundary_left pat (cb1 :: B0) (pat ++ (cc :: C0)) cb2 hpat hcb2]
    rfl
  have s2 : countOccs pat (pat ++ (cb1 :: ((B0 ++ [cb2]) ++ (pat ++ (cc :: C0))))) =
      1 + countOccs pat (cb1 :: ((B0 ++ [cb2]) ++ (pat ++ (cc :: C0)))) := by
    rw [countOccs_append_boundary_right pat pat _ cb1 hpat hcb1, countOccs_self pat hpat]
  rw [countOccs_append_boundary_left pat A0 _ ca hpat hca, hA, s2, s3, s4, hB, hC]

/-- The characters of `bibtexCtxB` between its fencing comma and
colon. -/
def bibMid (p : PaperInfo) : List Char :=
  "\n  title=\x7b".data ++ p.title.data ++ "\x7d,\n  author=\x7b".data ++
    (String.intercalate " and " (p.authors.map Author.name)).data ++
    "\x7d,\n  year=\x7b".data ++ (isoYear p.published).data ++
    "\x7d,\n  journal=\x7barXiv preprint arXiv".data

/-- The characters of `bibtexCtxC` after its fencing closing brace. -/
def bibCtail (p : PaperInfo) : List Char :=
  ",\n  url=\x7b".data ++ p.pdf_url.data ++ "\x7d\n\x7d".data

theorem bibtexCtxA_shape : bibtexCtxA.data = "@article".data ++ ['\x7b'] := by decide

theorem bibtexCtxB_shape (p : PaperInfo) :
    (bibtexCtxB p).data = ',' :: (bibMid p ++ [':']) := by
  have e1 : (",\n  title=\x7b" : String).data = ',' :: ("\n  title=\x7b" : String).data := by
    decide
  have e2 : ("\x7d,\n  journal=\x7barXiv preprint arXiv:" : String).data =
      ("\x7d,\n  journal=\x7barXiv preprint arXiv" : String).data ++ [':'] := by decide
  simp [bibtexCtxB, bibMid, String.data_append, e1, e2]

theorem bibtexCtxC_shape (p : PaperInfo) :
    (bibtexCtxC p).data = '\x7d' :: bibCtail p := by
  have e3 : ("\x7d,\n  url=\x7b" : String).data = '\x7d' :: (",\n  url=\x7b" : String).data := by
    decide
  simp [bibtexCtxC, bibCtail, String.data_append, e3]

theorem exportBibtex_decomp (p : PaperInfo) :
    exportBibtex p =
      bibtexCtxA ++ p.paper_id ++ bibtexCtxB p ++ p.paper_id ++ bibtexCtxC p := by
  apply String.ext
  simp [exportBibtex, bibtexCtxA, bibtexCtxB, bibtexCtxC, String.data_append]

theorem exportBibtex_data_shape (p : PaperInfo) :
    (exportBibtex p).data =
      ("@article".data ++ ['\x7b']) ++
        (p.paper_id.data ++
          (',' :: ((bibMid p ++ [':']) ++
            (p.paper_id.data ++ ('\x7d' :: bibCtail p))))) := by
  rw [exportBibtex_decomp p]
  simp [String.data_append, bibtexCtxA_shape, bibtexCtxB_shape, bibtexCtxC_shape]

/-- C7: for every stored record (whose identifier is nonempty, avoids
the template's fencing characters, and does not occur in the rest of
the rendered entry — the three context pieces), the citation export is
the fixed template with the identifier embedded in exactly two places
(the citation key and the synthetic journal field, `countOccs ... = 2`),
the author names joined by `" and "`, and the year taken from the
publication date. -/
theorem C7_citation_identifier_twice (p : PaperInfo)
    (hne : p.paper_id.data ≠ [])
    (hbl : '\x7b' ∉ p.paper_id.data) (hbr : '\x7d' ∉ p.paper_id.data)
    (hcm : ',' ∉ p.paper_id.data) (hcl : ':' ∉ p.paper_id.data)
    (hA : countOccs p.paper_id.data bibtexCtxA.data = 0)
    (hB : countOccs p.paper_id.data (bibtexCtxB p).data = 0)
    (hC : countOccs p.paper_id.data (bibtexCtxC p).data = 0) :
    exportBibtex p =
      bibtexCtxA ++ p.paper_id ++ bibtexCtxB p ++ p.paper_id ++ bibtexCtxC p ∧
    countOccs p.paper_id.data (exportBibtex p).data = 2 ∧
    (∃ x y, exportBibtex p =
      x ++ ("author=\x7b" ++ String.intercalate " and " (p.authors.map Author.name) ++
        "\x7d") ++ y) ∧
    (∃ x y, exportBibtex p =
      x ++ ("year=\x7b" ++ isoYear p.published ++ "\x7d") ++ y) := by
  refine ⟨exportBibtex_decomp p, ?_, ?_, ?_⟩
  · rw [exportBibtex_data_shape p]
    refine countOccs_two_slots p.paper_id.data "@article".data (bibMid p) (bibCtail p)
      '\x7b' ',' ':' '\x7d' hne hbl hcm hcl hbr ?_ ?_ ?_
    · rw [← bibtexCtxA_shape]
      exact hA
    · rw [← bibtexCtxB_shape]
      exact hB
    · rw [← bibtexCtxC_shape]
      exact hC
  · refine ⟨"@article\x7b" ++ p.paper_id ++ ",\n  title=\x7b" ++ p.title ++ "\x7d,\n  ",
      ",\n  year=\x7b" ++ isoYear p.published ++
        "\x7d,\n  journal=\x7barXiv preprint arXiv:" ++ p.paper_id ++
        "\x7d,\n  url=\x7b" ++ p.pdf_url ++ "\x7d\n\x7d", ?_⟩
    apply String.ext
    have e4 : ("\x7d,\n  author=\x7b" : String).data =
        ("\x7d,\n  " : String).data ++ ("author=\x7b" : String).data := by decide
    have e5 : ("\x7d,\n  year=\x7b" : String).data =
        ("\x7d" : String).data ++ (",\n  year=\x7b" : String).data := by decide
    simp [exportBibtex, String.data_append, e4, e5]
  · refine ⟨"@article\x7b" ++ p.paper_id ++ ",\n  title=\x7b" ++ p.title ++
        "\x7d,\n  author=\x7b" ++ String.intercalate " and " (p.authors.map Author.name) ++
        "\x7d,\n  ",
      ",\n  journal=\x7barXiv preprint arXiv:" ++ p.paper_id ++
        "\x7d,\n  url=\x7b" ++ p.pdf_url ++ "\x7d\n\x7d", ?_⟩
    apply String.ext
    have e6 : ("\x7d,\n  year=\x7b" : String).data =
        ("\x7d,\n  " : String).data ++ ("year=\x7b" : String).data := by decide
    have e7 : ("\x7d,\n  journal=\x7barXiv preprint arXiv:" : String).data =
        ("\x7d" : String).data ++
          (",\n  journal=\x7barXiv preprint arXiv:" : String).data := by decide
    simp [exportBibtex, String.data_append, e6, e7]

/-- A concrete record for the C7 witness: two authors, an identifier
absent from every other rendered field. -/
def paperCite : PaperInfo :=
  { paper_id := "2301.12345", title := "Attention Mechanisms",
    authors := [⟨"Ann A"⟩, ⟨"Bob B"⟩], summary := "S",
    pdf_url := "http://example.org/paper.pdf", published := "2017-06-12",
    category := some "cs.LG", updated := none, doi := none }

/-- Witness for C7 at a concrete two-author record. -/
theorem C7_citation_identifier_twice_witness :
    countOccs paperCite.paper_id.data (exportBibtex paperCite).data = 2 ∧
    (∃ x y, exportBibtex paperCite =
      x ++ ("author=\x7b" ++ String.intercalate " and "
        (paperCite.authors.map Author.name) ++ "\x7d") ++ y) :=
  ⟨(C7_citation_identifier_twice paperCite (by decide) (by decide) (by decide)
      (by decide) (by decide) (by decide) (by decide) (by decide)).2.1,
    (C7_citation_identifier_twice paperCite (by decide) (by decide) (by decide)
      (by decide) (by decide) (by decide) (by decide) (by decide)).2.2.1⟩

/-! ### Claim C8: database statistics -/

instance : IsTotal TopicStats statsSortRel :=
  ⟨fun a b => (Nat.le_total b.paper_count a.paper_count).imp id id⟩

instance : IsTrans TopicStats statsSortRel :=
  ⟨fun _ _ _ hab hbc => Nat.le_trans hbc hab⟩

/-- C8: `databaseStats` returns `total_topics` equal to the number of
listed topics, `total_papers` equal to the sum of the per-topic paper
counts, the per-topic stats sorted by paper count descending (a
permutation of the per-topic stats list), and a generated-at
timestamp; when the underlying file-handler work raises (the
`Except.error` input), it returns the degraded payload — zeros, empty
topic list, error field set — and never propagates the exception. -/
theorem C8_database_stats (inp : Except String (List DirEntry)) (now : String) :
    (∀ e, inp = Except.error e →
      getDatabaseStats inp now =
        { total_topics := 0, total_papers := 0, topics := [], generated_at := none,
          error := some e }) ∧
    (∀ store, inp = Except.ok store →
      (getDatabaseStats inp now).total_topics = (listAllTopics store).length ∧
      (getDatabaseStats inp now).total_papers =
        ((listAllTopics store).map (fun t => (getTopicStats store t).paper_count)).sum ∧
      (getDatabaseStats inp now).topics.Pairwise statsSortRel ∧
      (getDatabaseStats inp now).topics.Perm
        ((listAllTopics store).map (getTopicStats store)) ∧
      (getDatabaseStats inp now).generated_at = some now ∧
      (getDatabaseStats inp now).error = none) := by
  constructor
  · rintro e rfl
    rfl
  · rintro store rfl
    refine ⟨rfl, ?_, ?_, ?_, rfl, rfl⟩
    · show ((((listAllTopics store).map (getTopicStats store)).map
        (fun s => s.paper_count)).sum) =
        ((listAllTopics store).map (fun t => (getTopicStats store t).paper_count)).sum
      rw [List.map_map]
      rfl
    · exact List.sorted_insertionSort statsSortRel _
    · exact List.perm_insertionSort statsSortRel _

/-- Witness for C8: the degraded payload on a concrete internal error,
and the count sum on a concrete store. -/
theorem C8_database_stats_witness :
    getDatabaseStats (Except.error "boom") "2024-06-01T00:00:00" =
      { total_topics := 0, total_papers := 0, topics := [], generated_at := none,
        error := some "boom" } ∧
    (getDatabaseStats (Except.ok storeTitleSearch) "2024-06-01T00:00:00").total_papers =
      ((listAllTopics storeTitleSearch).map
        (fun t => (getTopicStats storeTitleSearch t).paper_count)).sum :=
  ⟨(C8_database_stats (Except.error "boom") "2024-06-01T00:00:00").1 "boom" rfl,
    ((C8_database_stats (Except.ok storeTitleSearch) "2024-06-01T00:00:00").2
      storeTitleSearch rfl).2.1⟩

/-! ### Strip lemmas (claim C1 round-trip) -/

theorem dropWhile_head_false (p : Char → Bool) (l t : List Char) (x : Char)
    (h : List.dropWhile p l = x :: t) : p x = false := by
  induction l with
  | nil => cases h
  | cons c cs ih =>
    rw [List.dropWhile_cons] at h
    by_cases hc : p c = true
    · rw [if_pos hc] at h
      exact ih h
    · rw [if_neg hc] at h
      injection h with h1 h2
      rw [← h1]
      exact Bool.eq_false_iff.mpr hc

theorem dropWhile_getLast? (p : Char → Bool) (l : List Char)
    (h : ¬ List.dropWhile p l = []) :
    (List.dropWhile p l).getLast? = l.getLast? := by
  induction l with
  | nil => simp at h
  | cons c cs ih =>
    rw [List.dropWhile_cons]
    by_cases hc : p c = true
    · rw [if_pos hc]
      rw [List.dropWhile_cons, if_pos hc] at h
      have hcs : ¬ cs = [] := by
        intro he
        rw [he] at h
        simp at h
      rw [ih h]
      cases cs with
      | nil => exact absurd rfl hcs
      | cons c2 cs2 => rw [List.getLast?_cons_cons]
    · rw [if_neg hc]

theorem stripChars_head?_false (p : Char → Bool) (l : List Char) (x : Char)
    (h : (stripChars p l).head? = some x) : p x = false := by
  unfold stripChars at h
  rw [List.head?_reverse] at h
  have hne : ¬ List.dropWhile p (List.dropWhile p l).reverse = [] := by
    intro he
    rw [he] at h
    cases h
  rw [dropWhile_getLast? p _ hne, List.getLast?_reverse] at h
  cases hd : List.dropWhile p l with
  | nil => rw [hd] at h; cases h
  | cons c cs =>
    rw [hd] at h
    have : x = c := by
      have : (c :: cs).head? = some c := rfl
      rw [this] at h
      injection h with h2
      exact h2.symm
    rw [this]
    exact dropWhile_head_false p l cs c hd

theorem stripChars_getLast?_false (p : Char → Bool) (l : List Char) (x : Char)
    (h : (stripChars p l).getLast? = some x) : p x = false := by
  unfold stripChars at h
  rw [List.getLast?_reverse] at h
  cases hd : List.dropWhile p (List.dropWhile p l).reverse with
  | nil => rw [hd] at h; cases h
  | cons c cs =>
    rw [hd] at h
    injection h with h2
    rw [← h2]
    exact dropWhile_head_false p _ cs c hd

theorem stripChars_eq_self (p : Char → Bool) (l : List Char)
    (hh : ∀ x, l.head? = some x → p x = false)
    (hl : ∀ x, l.getLast? = some x → p x = false) : stripChars p l = l := by
  have h1 : List.dropWhile p l = l := by
    cases l with
    | nil => rfl
    | cons c cs =>
      rw [List.dropWhile_cons, if_neg]
      rw [hh c rfl]
      exact Bool.false_ne_true
  unfold stripChars
  rw [h1]
  have h2 : List.dropWhile p l.reverse = l.reverse := by
    cases hrev : l.reverse with
    | nil => rfl
    | cons c cs =>
      have hlast : l.getLast? = some c := by
        rw [← List.head?_reverse, hrev]
        rfl
      rw [List.dropWhile_cons, if_neg]
      rw [hl c hlast]
      exact Bool.false_ne_true
  rw [h2, List.reverse_reverse]

theorem stripChars_idem (p : Char → Bool) (l : List Char) :
    stripChars p (stripChars p l) = stripChars p l :=
  stripChars_eq_self p (stripChars p l)
    (fun x h => stripChars_head?_false p l x h)
    (fun x h => stripChars_getLast?_false p l x h)

theorem pyStrip_idem (s : String) : pyStrip (pyStrip s) = pyStrip s :=
  congrArg String.mk (stripChars_idem Char.isWhitespace s.data)

/-! ### Record invariants and the serialize/parse round-trip -/

/-- The invariants of a record that survives the store's write/read
cycle: what the pydantic validators enforce, plus a nonempty author
list (which the reader's shape sniff requires). -/
def goodPaper (p : PaperInfo) : Prop :=
  ¬ p.authors = [] ∧ pyStrip p.paper_id = p.paper_id ∧ ¬ p.paper_id = "" ∧
    pyStrip p.title = p.title ∧ ¬ p.title = "" ∧
    pyStrip p.summary = p.summary ∧ ¬ p.summary = ""

instance : DecidablePred goodPaper := fun p => by
  unfold goodPaper
  infer_instance

/-- A collection whose records all carry the round-trip invariants and
whose keys are distinct (as `json.load` and the store's own inserts
guarantee). -/
def goodDb (db : PaperDatabase) : Prop :=
  (∀ kv ∈ db.papers, goodPaper kv.2) ∧ (db.papers.map (fun kv => kv.1)).Nodup

theorem data_eq_nil_iff (s : String) : s.data = [] ↔ s = "" := by
  constructor
  · intro h
    exact String.ext h
  · intro h
    rw [h]

theorem isEmpty_false_of_ne (s : String) (h : ¬ s = "") : s.data.isEmpty = false := by
  cases hd : s.data with
  | nil => exact absurd ((data_eq_nil_iff s).mp hd) h
  | cons c cs => rfl

theorem authors_map_roundtrip (as : List Author) :
    (as.map Author.name).map Author.mk = as := by
  induction as with
  | nil => rfl
  | cons a rest ih =>
    rw [List.map_cons, List.map_cons, ih]

theorem fromDictChecked_of_good (p : PaperInfo) (names : List String)
    (hg : goodPaper p) (hnames : names = p.authors.map Author.name) :
    PaperInfo.fromDictChecked p.toDict names = Except.ok p := by
  rcases hg with ⟨ha, hid, hidne, ht, htne, hs, hsne⟩
  unfold PaperInfo.fromDictChecked PaperInfo.toDict
  simp only
  rw [hid, hs, ht, isEmpty_false_of_ne _ hidne, isEmpty_false_of_ne _ htne,
    isEmpty_false_of_ne _ hsne]
  simp only [Bool.false_eq_true, if_false]
  rw [hnames, authors_map_roundtrip]

theorem toDict_fromDict (p : PaperInfo) (hg : goodPaper p) :
    PaperInfo.fromDict p.toDict = Except.ok p := by
  unfold PaperInfo.fromDict
  cases hauth : p.authors with
  | nil => exact absurd hauth hg.1
  | cons a rest =>
    have hnames : p.toDict.authors = AuthorsJson.strs (Author.name a :: rest.map Author.name) := by
      unfold PaperInfo.toDict
      rw [hauth]
      rfl
    rw [hnames]
    have := fromDictChecked_of_good p (Author.name a :: rest.map Author.name) hg
      (by rw [hauth]; rfl)
    exact this

theorem fromDictChecked_good (d : RawPaper) (names : List String) (p : PaperInfo)
    (hnames : ¬ names = []) (h : PaperInfo.fromDictChecked d names = Except.ok p) :
    goodPaper p := by
  unfold PaperInfo.fromDictChecked at h
  by_cases h1 : (pyStrip d.paper_id).data.isEmpty = true
  · rw [if_pos h1] at h
    cases h
  · rw [if_neg h1] at h
    by_cases h2 : (pyStrip d.title).data.isEmpty = true
    · rw [if_pos h2] at h
      cases h
    · rw [if_neg h2] at h
      by_cases h3 : (pyStrip d.summary).data.isEmpty = true
      · rw [if_pos h3] at h
        cases h
      · rw [if_neg h3] at h
        injection h with hp
        rw [← hp]
        refine ⟨?_, pyStrip_idem d.paper_id, ?_, pyStrip_idem d.title, ?_,
          pyStrip_idem d.summary, ?_⟩
        · cases names with
          | nil => exact absurd rfl hnames
          | cons n ns => simp
        · intro he
          have he2 : pyStrip d.paper_id = "" := he
          rw [he2] at h1
          exact h1 rfl
        · intro he
          have he2 : pyStrip d.title = "" := he
          rw [he2] at h2
          exact h2 rfl
        · intro he
          have he2 : pyStrip d.summary = "" := he
          rw [he2] at h3
          exact h3 rfl

theorem fromDict_good (d : RawPaper) (p : PaperInfo)
    (h : PaperInfo.fromDict d = Except.ok p) : goodPaper p := by
  unfold PaperInfo.fromDict at h
  cases hauth : d.authors with
  | strs ns =>
    rw [hauth] at h
    cases ns with
    | nil => cases h
    | cons n ns2 => exact fromDictChecked_good d (n :: ns2) p (by simp) h
  | objs ns =>
    rw [hauth] at h
    cases ns with
    | nil => cases h
    | cons n ns2 => exact fromDictChecked_good d (n :: ns2) p (by simp) h

/-! ### Dictionary key lemmas -/

theorem dictKeys_insert_of_has (m : List (String × α)) (k : String) (v : α)
    (h : dictHas m k = true) : dictKeys (dictInsert m k v) = dictKeys m := by
  unfold dictInsert dictHas at *
  rw [if_pos h]
  unfold dictKeys
  rw [List.map_map]
  refine List.map_congr_left ?_
  intro kv hkv
  by_cases hk : kv.1 = k
  · simp [Function.comp, hk]
  · simp [Function.comp, hk]

theorem dictKeys_insert_of_fresh (m : List (String × α)) (k : String) (v : α)
    (h : dictHas m k = false) : dictKeys (dictInsert m k v) = dictKeys m ++ [k] := by
  rw [dictInsert_fresh m k v h]
  unfold dictKeys
  rw [List.map_append]
  rfl

theorem not_mem_dictKeys_of_not_has (m : List (String × α)) (k : String)
    (h : dictHas m k = false) : ¬ k ∈ dictKeys m := by
  intro hmem
  rcases List.mem_map.mp hmem with ⟨kv, hkv, hk⟩
  have := List.any_eq_false.mp h kv hkv
  rw [hk] at this
  simp at this

theorem mem_dictInsert (m : List (String × α)) (k : String) (v : α) (kv : String × α)
    (h : kv ∈ dictInsert m k v) : kv ∈ m ∨ kv = (k, v) := by
  unfold dictInsert at h
  by_cases hany : m.any (fun kv => kv.1 == k) = true
  · rw [if_pos hany] at h
    rcases List.mem_map.mp h with ⟨kv0, hkv0, heq⟩
    by_cases hk : kv0.1 = k
    · rw [if_pos (by simp [hk])] at heq
      exact Or.inr heq.symm
    · rw [if_neg (by simp [hk])] at heq
      exact Or.inl (heq ▸ hkv0)
  · rw [if_neg hany] at h
    rcases List.mem_append.mp h with hm | hs
    · exact Or.inl hm
    · exact Or.inr (List.mem_singleton.mp hs)

/-! ### Loaded collections are well-formed -/

theorem foldlM_insert_good (data : List (String × RawPaper))
    (acc : List (String × PaperInfo)) (papers : List (String × PaperInfo))
    (hacc : (∀ kv ∈ acc, goodPaper kv.2) ∧ (acc.map (fun kv => kv.1)).Nodup)
    (h : (data.foldlM
      (fun acc kv => do
        let p ← PaperInfo.fromDict kv.2
        pure (dictInsert acc kv.1 p))
      acc : Except String (List (String × PaperInfo))) = Except.ok papers) :
    (∀ kv ∈ papers, goodPaper kv.2) ∧ (papers.map (fun kv => kv.1)).Nodup := by
  induction data generalizing acc with
  | nil =>
    rw [List.foldlM_nil] at h
    injection h with h2
    rw [← h2]
    exact hacc
  | cons kv rest ih =>
    rw [List.foldlM_cons] at h
    cases hd : PaperInfo.fromDict kv.2 with
    | error e =>
      rw [hd] at h
      cases h
    | ok p =>
      rw [hd] at h
      refine ih (dictInsert acc kv.1 p) ?_ (by simpa using h)
      constructor
      · intro kv2 hkv2
        rcases mem_dictInsert acc kv.1 p kv2 hkv2 with hm | he
        · exact hacc.1 kv2 hm
        · rw [he]
          exact fromDict_good kv.2 p hd
      · show (dictKeys (dictInsert acc kv.1 p)).Nodup
        by_cases hhas : dictHas acc kv.1 = true
        · rw [show dictKeys (dictInsert acc kv.1 p) = dictKeys acc
            from dictKeys_insert_of_has acc kv.1 p hhas]
          exact hacc.2
        · rw [show dictKeys (dictInsert acc kv.1 p) = dictKeys acc ++ [kv.1]
            from dictKeys_insert_of_fresh acc kv.1 p (Bool.eq_false_iff.mpr hhas)]
          rw [List.nodup_append]
          refine ⟨hacc.2, List.nodup_singleton _, ?_⟩
          intro x hx hx2
          rw [List.mem_singleton.mp hx2] at hx
          exact not_mem_dictKeys_of_not_has acc kv.1 (Bool.eq_false_iff.mpr hhas) hx

theorem fromJsonDict_good (data : List (String × RawPaper)) (db : PaperDatabase)
    (h : PaperDatabase.fromJsonDict data = Except.ok db) : goodDb db := by
  unfold PaperDatabase.fromJsonDict at h
  cases hf : (data.foldlM
      (fun acc kv => do
        let p ← PaperInfo.fromDict kv.2
        pure (dictInsert acc kv.1 p))
      ([] : List (String × PaperInfo)) : Except String (List (String × PaperInfo))) with
  | error e =>
    rw [hf] at h
    cases h
  | ok papers =>
    rw [hf] at h
    injection h with h2
    have hgood := foldlM_insert_good data [] papers ⟨by simp, List.nodup_nil⟩ hf
    rw [← h2]
    exact hgood

theorem loadPapersDatabase_good (fs : FileState) : goodDb (loadPapersDatabase fs) := by
  unfold loadPapersDatabase
  cases hl : PaperDatabase.loadFromFile fs with
  | error e => exact ⟨fun kv hkv => absurd hkv (List.not_mem_nil kv), List.nodup_nil⟩
  | ok db =>
    cases fs with
    | missing =>
      have hdb : db = PaperDatabase.empty := by
        injection hl with h2
        exact h2.symm
      rw [hdb]
      exact ⟨fun kv hkv => absurd hkv (List.not_mem_nil kv), List.nodup_nil⟩
    | notJson =>
      have hdb : db = PaperDatabase.empty := by
        injection hl with h2
        exact h2.symm
      rw [hdb]
      exact ⟨fun kv hkv => absurd hkv (List.not_mem_nil kv), List.nodup_nil⟩
    | json data => exact fromJsonDict_good data db hl

theorem dictHas_false_iff (m : List (String × α)) (k : String) :
    dictHas m k = false ↔ ¬ k ∈ dictKeys m := by
  constructor
  · exact not_mem_dictKeys_of_not_has m k
  · intro h
    cases hh : dictHas m k with
    | false => rfl
    | true =>
      rcases List.any_eq_true.mp hh with ⟨kv, hkv, hp⟩
      exact absurd (List.mem_map.mpr ⟨kv, hkv, by simpa using hp⟩) h

theorem foldlM_insert_roundtrip (papers : List (String × PaperInfo))
    (acc : List (String × PaperInfo))
    (hg : ∀ kv ∈ papers, goodPaper kv.2)
    (hnd : (papers.map (fun kv => kv.1)).Nodup)
    (hdisj : ∀ kv ∈ papers, dictHas acc kv.1 = false) :
    ((papers.map (fun kv => (kv.1, kv.2.toDict))).foldlM
      (fun acc kv => do
        let p ← PaperInfo.fromDict kv.2
        pure (dictInsert acc kv.1 p))
      acc : Except String (List (String × PaperInfo))) = Except.ok (acc ++ papers) := by
  induction papers generalizing acc with
  | nil =>
    rw [List.map_nil, List.foldlM_nil, List.append_nil]
    rfl
  | cons kv rest ih =>
    rw [List.map_cons, List.foldlM_cons]
    have hfd : PaperInfo.fromDict (kv.1, kv.2.toDict).2 = Except.ok kv.2 :=
      toDict_fromDict kv.2 (hg kv (List.mem_cons_self kv rest))
    rw [hfd]
    have hins : dictInsert acc (kv.1, kv.2.toDict).1 kv.2 = acc ++ [kv] := by
      rw [dictInsert_fresh acc kv.1 kv.2 (hdisj kv (List.mem_cons_self kv rest))]
    have hkey : ¬ kv.1 ∈ (rest.map (fun kv => kv.1)) := by
      rw [List.map_cons] at hnd
      exact (List.nodup_cons.mp hnd).1
    have hdisj2 : ∀ kv2 ∈ rest, dictHas (acc ++ [kv]) kv2.1 = false := by
      intro kv2 hkv2
      unfold dictHas
      rw [List.any_append]
      have h1 : acc.any (fun kv3 => kv3.1 == kv2.1) = false :=
        hdisj kv2 (List.mem_cons_of_mem kv hkv2)
      have h2 : ([kv].any (fun kv3 => kv3.1 == kv2.1)) = false := by
        simp only [List.any_cons, List.any_nil, Bool.or_false]
        refine beq_false_of_ne ?_
        intro he
        exact hkey (he ▸ List.mem_map.mpr ⟨kv2, hkv2, rfl⟩)
      rw [h1, h2]
      rfl
    have hrest := ih (acc ++ [kv])
      (fun kv2 hkv2 => hg kv2 (List.mem_cons_of_mem kv hkv2))
      ((List.nodup_cons.mp (by rw [List.map_cons] at hnd; exact hnd)).2)
      hdisj2
    have hfinal : acc ++ [kv] ++ rest = acc ++ kv :: rest := by
      rw [List.append_assoc]
      rfl
    rw [← hfinal]
    simpa [hins] using hrest

theorem fromJsonDict_toJsonDict (db : PaperDatabase) (hdb : goodDb db) :
    PaperDatabase.fromJsonDict db.toJsonDict = Except.ok ⟨db.papers, []⟩ := by
  unfold PaperDatabase.fromJsonDict PaperDatabase.toJsonDict
  rw [show (do
      let papers ← (db.papers.map (fun kv => (kv.1, kv.2.toDict))).foldlM
        (fun acc kv => do
          let p ← PaperInfo.fromDict kv.2
          pure (dictInsert acc kv.1 p))
        ([] : List (String × PaperInfo))
      pure (⟨papers, []⟩ : PaperDatabase) : Except String PaperDatabase) =
      (do
      let papers ← (Except.ok (([] : List (String × PaperInfo)) ++ db.papers) :
        Except String (List (String × PaperInfo)))
      pure (⟨papers, []⟩ : PaperDatabase)) from by
    rw [foldlM_insert_roundtrip db.papers [] hdb.1 hdb.2 (fun kv hkv => rfl)]]
  rw [List.nil_append]
  rfl

theorem roundtrip_load_save (db : PaperDatabase) (hdb : goodDb db) :
    loadPapersDatabase (FileState.json db.toJsonDict) = ⟨db.papers, []⟩ := by
  unfold loadPapersDatabase
  have h : PaperDatabase.loadFromFile (FileState.json db.toJsonDict) =
      Except.ok ⟨db.papers, []⟩ := fromJsonDict_toJsonDict db hdb
  rw [h]

/-! ### Upsert lemmas (claim C1) -/

theorem upsert_foldl_hasPaper_mono (cands : List PaperInfo) (acc : PaperDatabase × Nat)
    (k : String) (h : acc.1.hasPaper k = true) :
    (cands.foldl (fun acc paper =>
      if acc.1.hasPaper paper.paper_id then acc
      else (acc.1.addPaper paper, acc.2 + 1)) acc).1.hasPaper k = true := by
  induction cands generalizing acc with
  | nil => exact h
  | cons c rest ih =>
    rw [List.foldl_cons]
    by_cases hc : acc.1.hasPaper c.paper_id = true
    · rw [if_pos hc]
      exact ih acc h
    · rw [if_neg hc]
      exact ih _ (dictHas_insert_mono acc.1.papers c.paper_id k c h)

theorem upsert_foldl_has_all (cands : List PaperInfo) (acc : PaperDatabase × Nat) :
    ∀ p ∈ cands, (cands.foldl (fun acc paper =>
      if acc.1.hasPaper paper.paper_id then acc
      else (acc.1.addPaper paper, acc.2 + 1)) acc).1.hasPaper p.paper_id = true := by
  induction cands generalizing acc with
  | nil => intro p hp; cases hp
  | cons c rest ih =>
    intro p hp
    rw [List.foldl_cons]
    rcases List.mem_cons.mp hp with rfl | hrest
    · by_cases hc : acc.1.hasPaper p.paper_id = true
      · rw [if_pos hc]
        exact upsert_foldl_hasPaper_mono rest acc p.paper_id hc
      · rw [if_neg hc]
        exact upsert_foldl_hasPaper_mono rest _ p.paper_id
          (dictHas_insert_self acc.1.papers p.paper_id p)
    · by_cases hc : acc.1.hasPaper c.paper_id = true
      · rw [if_pos hc]
        exact ih acc p hrest
      · rw [if_neg hc]
        exact ih _ p hrest

theorem upsert_foldl_no_new (cands : List PaperInfo) (acc : PaperDatabase × Nat)
    (h : ∀ p ∈ cands, acc.1.hasPaper p.paper_id = true) :
    cands.foldl (fun acc paper =>
      if acc.1.hasPaper paper.paper_id then acc
      else (acc.1.addPaper paper, acc.2 + 1)) acc = acc := by
  induction cands generalizing acc with
  | nil => rfl
  | cons c rest ih =>
    rw [List.foldl_cons, if_pos (h c (List.mem_cons_self c rest))]
    exact ih acc (fun p hp => h p (List.mem_cons_of_mem c hp))

theorem upsert_foldl_getPaper_preserved (cands : List PaperInfo)
    (acc : PaperDatabase × Nat) (pid : String) (p : PaperInfo)
    (h : acc.1.getPaper pid = some p) :
    (cands.foldl (fun acc paper =>
      if acc.1.hasPaper paper.paper_id then acc
      else (acc.1.addPaper paper, acc.2 + 1)) acc).1.getPaper pid = some p := by
  induction cands generalizing acc with
  | nil => exact h
  | cons c rest ih =>
    rw [List.foldl_cons]
    by_cases hc : acc.1.hasPaper c.paper_id = true
    · rw [if_pos hc]
      exact ih acc h
    · rw [if_neg hc]
      refine ih _ ?_
      show dictGet (dictInsert acc.1.papers c.paper_id c) pid = some p
      rw [dictInsert_fresh acc.1.papers c.paper_id c (Bool.eq_false_iff.mpr hc)]
      exact dictGet_append_left acc.1.papers pid (c.paper_id, c) p h

theorem upsert_foldl_goodDb (cands : List PaperInfo) (db : PaperDatabase) (n : Nat)
    (hdb : goodDb db) (hc : ∀ p ∈ cands, goodPaper p) :
    goodDb (cands.foldl (fun acc paper =>
      if acc.1.hasPaper paper.paper_id then acc
      else (acc.1.addPaper paper, acc.2 + 1)) (db, n)).1 := by
  induction cands generalizing db n with
  | nil => exact hdb
  | cons c rest ih =>
    rw [List.foldl_cons]
    by_cases hcc : (db, n).1.hasPaper c.paper_id = true
    · rw [if_pos hcc]
      exact ih db n hdb (fun p hp => hc p (List.mem_cons_of_mem c hp))
    · rw [if_neg hcc]
      refine ih _ _ ?_ (fun p hp => hc p (List.mem_cons_of_mem c hp))
      have hfresh : dictHas db.papers c.paper_id = false := Bool.eq_false_iff.mpr hcc
      constructor
      · intro kv hkv
        show goodPaper kv.2
        have : kv ∈ dictInsert db.papers c.paper_id c := hkv
        rcases mem_dictInsert db.papers c.paper_id c kv this with hm | he
        · exact hdb.1 kv hm
        · rw [he]
          exact hc c (List.mem_cons_self c rest)
      · show (dictKeys (dictInsert db.papers c.paper_id c)).Nodup
        rw [dictKeys_insert_of_fresh db.papers c.paper_id c hfresh]
        rw [List.nodup_append]
        refine ⟨hdb.2, List.nodup_singleton _, ?_⟩
        intro x hx hx2
        rw [List.mem_singleton.mp hx2] at hx
        exact not_mem_dictKeys_of_not_has db.papers c.paper_id hfresh hx

/-! ### Save/resolve lemmas (claim C1) -/

theorem find?_map_replace_pred (l : List DirEntry) (p : DirEntry → Bool) (r : DirEntry)
    (hany : l.any p = true) (hr : p r = true) :
    (l.map (fun d => if p d then r else d)).find? p = some r := by
  induction l with
  | nil => simp at hany
  | cons d rest ih =>
    rw [List.map_cons]
    by_cases hd : p d = true
    · rw [if_pos hd, List.find?_cons_of_pos _ hr]
    · rw [if_neg hd, List.find?_cons_of_neg _ hd]
      have hrest : rest.any p = true := by
        rw [List.any_cons] at hany
        rcases Bool.or_eq_true_iff.mp hany with h1 | h2
        · exact absurd h1 hd
        · exact h2
      exact ih hrest

theorem map_replace_id (l : List DirEntry) (p : DirEntry → Bool) (r : DirEntry)
    (h : ∀ d ∈ l, p d = true → d = r) :
    l.map (fun d => if p d then r else d) = l := by
  induction l with
  | nil => rfl
  | cons d rest ih =>
    rw [List.map_cons]
    by_cases hd : p d = true
    · have hdr := h d (List.mem_cons_self d rest) hd
      rw [if_pos hd, ih (fun d2 hd2 hp2 => h d2 (List.mem_cons_of_mem d hd2) hp2), ← hdr]
    · rw [if_neg hd, ih (fun d2 hd2 hp2 => h d2 (List.mem_cons_of_mem d hd2) hp2)]

theorem applySave_creates_dir (store : List DirEntry) (topic : String)
    (db : PaperDatabase) (now : String) :
    ((applySave store topic db now).1.any
      (fun d => d.isDir && (d.name == sanitizeFilename topic))) = true := by
  unfold applySave
  by_cases h : store.any (fun d => d.isDir && (d.name == sanitizeFilename topic)) = true
  · rw [if_pos h]
    rcases List.any_eq_true.mp h with ⟨d, hd, hp⟩
    refine List.any_eq_true.mpr
      ⟨⟨sanitizeFilename topic, true, (savePapersDatabase topic db now).2.1⟩,
        List.mem_map.mpr ⟨d, hd, by rw [if_pos hp]⟩, by simp⟩
  · rw [if_neg h]
    exact List.any_eq_true.mpr
      ⟨⟨sanitizeFilename topic, true, (savePapersDatabase topic db now).2.1⟩,
        List.mem_append_right _ (List.mem_singleton.mpr rfl), by simp⟩

theorem applySave_resolve (store : List DirEntry) (topic : String) (db : PaperDatabase)
    (now : String) :
    storeResolve (applySave store topic db now).1 topic =
      FileState.json db.toJsonDict := by
  have hcontent : (savePapersDatabase topic db now).2.1 = FileState.json db.toJsonDict := rfl
  unfold applySave storeResolve
  by_cases h : store.any (fun d => d.isDir && (d.name == sanitizeFilename topic)) = true
  · rw [if_pos h]
    rw [find?_map_replace_pred store _
      ⟨sanitizeFilename topic, true, (savePapersDatabase topic db now).2.1⟩ h (by simp)]
    exact hcontent
  · rw [if_neg h]
    rw [List.find?_append]
    have hnone : store.find? (fun d => d.isDir && (d.name == sanitizeFilename topic)) =
        none := by
      rw [List.find?_eq_none]
      intro d hd hp
      exact h (List.any_eq_true.mpr ⟨d, hd, hp⟩)
    rw [hnone, Option.none_or, List.find?_cons_of_pos _ (by simp)]
    exact hcontent

theorem applySave_entries (store : List DirEntry) (topic : String) (db : PaperDatabase)
    (now : String) :
    ∀ d ∈ (applySave store topic db now).1,
      (d.isDir && (d.name == sanitizeFilename topic)) = true →
      d = ⟨sanitizeFilename topic, true, (savePapersDatabase topic db now).2.1⟩ := by
  unfold applySave
  by_cases h : store.any (fun d => d.isDir && (d.name == sanitizeFilename topic)) = true
  · rw [if_pos h]
    intro d hd hp
    rcases List.mem_map.mp hd with ⟨d0, hd0, heq⟩
    by_cases hp0 : (d0.isDir && (d0.name == sanitizeFilename topic)) = true
    · rw [if_pos hp0] at heq
      exact heq.symm
    · rw [if_neg hp0] at heq
      rw [← heq] at hp
      exact absurd hp hp0
  · rw [if_neg h]
    intro d hd hp
    rcases List.mem_append.mp hd with hm | hs
    · exact absurd (List.any_eq_true.mpr ⟨d, hm, hp⟩) h
    · exact List.mem_singleton.mp hs

theorem applySave_on_existing (s1 : List DirEntry) (topic : String) (db2 : PaperDatabase)
    (now2 : String)
    (hany : s1.any (fun d => d.isDir && (d.name == sanitizeFilename topic)) = true)
    (hent : ∀ d ∈ s1, (d.isDir && (d.name == sanitizeFilename topic)) = true →
      d = ⟨sanitizeFilename topic, true, FileState.json db2.toJsonDict⟩) :
    (applySave s1 topic db2 now2).1 = s1 := by
  unfold applySave
  rw [if_pos hany]
  refine map_replace_id s1 _ _ ?_
  intro d hd hp
  rw [hent d hd hp]
  rfl

theorem applySave_stable (store : List DirEntry) (topic : String)
    (db db2 : PaperDatabase) (now now2 : String)
    (hcontent : db2.toJsonDict = db.toJsonDict) :
    (applySave (applySave store topic db now).1 topic db2 now2).1 =
      (applySave store topic db now).1 := by
  refine applySave_on_existing _ topic db2 now2 (applySave_creates_dir store topic db now) ?_
  intro d hd hp
  rw [applySave_entries store topic db now d hd hp]
  rw [show (savePapersDatabase topic db now).2.1 = FileState.json db.toJsonDict from rfl,
    hcontent]

/-! ### Claim C1 -/

/-- A candidate with an empty author list — constructible, since the
record model does not validate `authors`. -/
def paperNoAuthors : PaperInfo :=
  { paper_id := "9999.0001", title := "Bad", authors := [], summary := "S",
    pdf_url := "http://example.org/bad.pdf", published := "2024-01-01",
    category := none, updated := none, doi := none }

/-- C1 counterexample: with a single candidate whose author list is
empty, the first run stores it, but the stored form makes the whole
collection unreadable on the next load (the reader inspects
`authors[0]`), so the second run with the same candidate list reports
1 new record, not 0. -/
theorem C1_second_run_readds :
    (searchPapersRun [] "t" [paperNoAuthors] "T1").2 = 1 ∧
    (searchPapersRun (searchPapersRun [] "t" [paperNoAuthors] "T1").1 "t"
      [paperNoAuthors] "T2").2 = 1 ∧
    ¬ (searchPapersRun (searchPapersRun [] "t" [paperNoAuthors] "T1").1 "t"
      [paperNoAuthors] "T2").2 = 0 := by
  refine ⟨by decide, by decide, by decide⟩

/-- C1 (amended): for every topic, store state and candidate sequence
whose candidates satisfy the record invariants (trimmed nonempty
id/title/summary — what the constructor's validators enforce — plus
a nonempty author list), running the search upsert a second time with
the same candidates adds zero new records and leaves the store
unchanged; and (unconditionally) a candidate never overwrites an
existing record with its identifier.  Each run performs a single save,
which `searchPapersRun` models by one `applySave`. -/
theorem C1_upsert_idempotent (store : List DirEntry) (topic : String)
    (cands : List PaperInfo) (now1 now2 : String)
    (hc : ∀ p ∈ cands, goodPaper p) :
    (searchPapersRun (searchPapersRun store topic cands now1).1 topic cands now2).2 = 0 ∧
    (searchPapersRun (searchPapersRun store topic cands now1).1 topic cands now2).1 =
      (searchPapersRun store topic cands now1).1 ∧
    (∀ db pid p, db.getPaper pid = some p →
      (upsertFromSearch db cands).1.getPaper pid = some p) := by
  have hnoov : ∀ (db : PaperDatabase) pid p, db.getPaper pid = some p →
      (upsertFromSearch db cands).1.getPaper pid = some p := by
    intro db pid p h
    exact upsert_foldl_getPaper_preserved cands (db, 0) pid p h
  set t := pyStrip topic with ht
  set db0 := storeLoad store t with hdb0def
  set db1 := (upsertFromSearch db0 cands).1 with hdb1def
  set store1 := (applySave store t db1 now1).1 with hstore1def
  have hgood0 : goodDb db0 := loadPapersDatabase_good (storeResolve store t)
  have hgood1 : goodDb db1 := by
    rw [hdb1def]
    exact upsert_foldl_goodDb cands db0 0 hgood0 hc
  have hload1 : storeLoad store1 t = ⟨db1.papers, []⟩ := by
    rw [hstore1def]
    show loadPapersDatabase (storeResolve (applySave store t db1 now1).1 t) = _
    rw [applySave_resolve store t db1 now1]
    exact roundtrip_load_save db1 hgood1
  have hhasall : ∀ p ∈ cands,
      (⟨db1.papers, []⟩ : PaperDatabase).hasPaper p.paper_id = true := by
    intro p hp
    exact upsert_foldl_has_all cands (db0, 0) p hp
  have hup2 : upsertFromSearch (⟨db1.papers, []⟩ : PaperDatabase) cands =
      ((⟨db1.papers, []⟩ : PaperDatabase), 0) :=
    upsert_foldl_no_new cands ((⟨db1.papers, []⟩ : PaperDatabase), 0) hhasall
  refine ⟨?_, ?_, hnoov⟩
  · show (upsertFromSearch (storeLoad store1 t) cands).2 = 0
    rw [hload1, hup2]
  · show (applySave store1 t (upsertFromSearch (storeLoad store1 t) cands).1 now2).1 =
      store1
    rw [hload1, hup2]
    show (applySave store1 t (⟨db1.papers, []⟩ : PaperDatabase) now2).1 = store1
    rw [hstore1def]
    exact applySave_stable store t db1 (⟨db1.papers, []⟩ : PaperDatabase) now1 now2 rfl

/-- A well-formed candidate for the C1 witness. -/
def goodCand : PaperInfo :=
  { paper_id := "2405.0007", title := "Good", authors := [⟨"Ann A"⟩], summary := "S",
    pdf_url := "http://example.org/good.pdf", published := "2024-05-01",
    category := some "cs.LG", updated := none, doi := none }

/-- Witness for the amended C1 at a concrete run. -/
theorem C1_upsert_idempotent_witness :
    (searchPapersRun (searchPapersRun [] "quantum computing" [goodCand] "T1").1
      "quantum computing" [goodCand] "T2").2 = 0 ∧
    (searchPapersRun (searchPapersRun [] "quantum computing" [goodCand] "T1").1
      "quantum computing" [goodCand] "T2").1 =
      (searchPapersRun [] "quantum computing" [goodCand] "T1").1 :=
  ⟨(C1_upsert_idempotent [] "quantum computing" [goodCand] "T1" "T2" (by decide)).1,
    (C1_upsert_idempotent [] "quantum computing" [goodCand] "T1" "T2" (by decide)).2.1⟩

/-! ### Character-case and replacement lemmas (claim C10) -/

theorem toNat_ofNat_valid (n : Nat) (h : n < 55296) : (Char.ofNat n).toNat = n := by
  unfold Char.ofNat
  rw [dif_pos (Or.inl h)]
  rfl

theorem toLower_toLower (c : Char) : c.toLower.toLower = c.toLower := by
  simp only [Char.toLower]
  by_cases h : c.toNat ≥ 65 ∧ c.toNat ≤ 90
  · rw [if_pos h, toNat_ofNat_valid (c.toNat + 32) (by omega), if_neg (by omega)]
  · rw [if_neg h, if_neg h]

theorem toLower_toUpper (c : Char) : c.toUpper.toLower = c.toLower := by
  simp only [Char.toUpper, Char.toLower]
  by_cases h : c.toNat ≥ 97 ∧ c.toNat ≤ 122
  · rw [if_pos h, toNat_ofNat_valid (c.toNat - 32) (by omega), if_pos (by omega),
      if_neg (by omega), show c.toNat - 32 + 32 = c.toNat from by omega]
    exact Char.ofNat_toNat c
  · rw [if_neg h]

theorem map_toLower_pyTitleAux (b : Bool) (l : List Char) :
    (pyTitleAux b l).map Char.toLower = l.map Char.toLower := by
  induction l generalizing b with
  | nil => rfl
  | cons c cs ih =>
    simp only [pyTitleAux]
    by_cases h : c.isAlpha = true
    · rw [if_pos h]
      cases b with
      | true =>
        rw [if_pos rfl, List.map_cons, List.map_cons, ih, toLower_toLower]
      | false =>
        rw [if_neg (by simp), List.map_cons, List.map_cons, ih, toLower_toUpper]
    · rw [if_neg h, List.map_cons, List.map_cons, ih]

theorem pyReplaceFuel_single (a b : Char) (fuel : Nat) (s : List Char)
    (h : s.length ≤ fuel) :
    pyReplaceFuel [a] [b] fuel s = s.map (fun c => if c = a then b else c) := by
  induction fuel generalizing s with
  | zero =>
    cases s with
    | nil => rfl
    | cons c cs => simp at h
  | succ f ih =>
    cases s with
    | nil => rfl
    | cons c cs =>
      simp only [pyReplaceFuel]
      by_cases hc : c = a
      · rw [if_pos (by simp [List.isPrefixOf, hc]), List.map_cons, if_pos hc]
        have hdrop : List.drop ([a] : List Char).length (c :: cs) = cs := rfl
        rw [hdrop, ih cs (by simpa using Nat.le_of_succ_le_succ (by simpa using h))]
        rfl
      · rw [if_neg (by simp [List.isPrefixOf]; exact fun he => hc he.symm),
          List.map_cons, if_neg hc,
          ih cs (by simpa using Nat.le_of_succ_le_succ (by simpa using h))]

theorem pyReplace_single (a b : Char) (s : List Char) :
    pyReplace [a] [b] s = s.map (fun c => if c = a then b else c) :=
  pyReplaceFuel_single a b s.length s (Nat.le_refl _)

theorem pyReplaceFuel_delete (a : Char) (fuel : Nat) (s : List Char)
    (h : s.length ≤ fuel) :
    pyReplaceFuel [a] [] fuel s = s.filter (fun c => !(c == a)) := by
  induction fuel generalizing s with
  | zero =>
    cases s with
    | nil => rfl
    | cons c cs => simp at h
  | succ f ih =>
    cases s with
    | nil => rfl
    | cons c cs =>
      simp only [pyReplaceFuel]
      by_cases hc : c = a
      · rw [if_pos (by simp [List.isPrefixOf, hc])]
        have hdrop : List.drop ([a] : List Char).length (c :: cs) = cs := rfl
        rw [hdrop, ih cs (by simpa using Nat.le_of_succ_le_succ (by simpa using h))]
        rw [List.filter_cons, if_neg (by simp [hc])]
        rfl
      · rw [if_neg (by simp [List.isPrefixOf]; exact fun he => hc he.symm),
          ih cs (by simpa using Nat.le_of_succ_le_succ (by simpa using h)),
          List.filter_cons, if_pos (by simp [hc])]

theorem pyReplace_delete (a : Char) (s : List Char) :
    pyReplace [a] [] s = s.filter (fun c => !(c == a)) :=
  pyReplaceFuel_delete a s.length s (Nat.le_refl _)

theorem mem_pyReplaceFuel (pat rep : List Char) (fuel : Nat) (s : List Char) (c : Char)
    (h : c ∈ pyReplaceFuel pat rep fuel s) : c ∈ s ∨ c ∈ rep := by
  induction fuel generalizing s with
  | zero =>
    cases s with
    | nil => cases h
    | cons c2 cs => exact Or.inl h
  | succ f ih =>
    cases s with
    | nil => cases h
    | cons c2 cs =>
      simp only [pyReplaceFuel] at h
      by_cases hp : pat.isPrefixOf (c2 :: cs) = true
      · rw [if_pos hp] at h
        rcases List.mem_append.mp h with hr | hrec
        · exact Or.inr hr
        · rcases ih _ hrec with hs | hr
          · exact Or.inl (List.mem_of_mem_drop hs)
          · exact Or.inr hr
      · rw [if_neg hp] at h
        rcases List.mem_cons.mp h with rfl | hrec
        · exact Or.inl (List.mem_cons_self c cs)
        · rcases ih cs hrec with hs | hr
          · exact Or.inl (List.mem_cons_of_mem c2 hs)
          · exact Or.inr hr

theorem containsSub_iff_sub (pat s : List Char) :
    containsSub pat s = true ↔ pat <:+: s := by
  induction s with
  | nil =>
    show pat.isPrefixOf [] = true ↔ pat <:+: []
    rw [List.isPrefixOf_iff_prefix, List.prefix_nil, List.infix_nil]
  | cons c cs ih =>
    show (pat.isPrefixOf (c :: cs) || containsSub pat cs) = true ↔ pat <:+: c :: cs
    rw [Bool.or_eq_true, List.isPrefixOf_iff_prefix, ih, List.infix_cons_iff]

theorem pyReplaceFuel_len_le (fuel : Nat) (s : List Char) :
    (pyReplaceFuel ['_', '_'] ['_'] fuel s).length ≤ s.length := by
  induction fuel generalizing s with
  | zero =>
    cases s with
    | nil => exact Nat.le_refl _
    | cons c cs => exact Nat.le_refl _
  | succ f ih =>
    cases s with
    | nil => exact Nat.le_refl _
    | cons c cs =>
      simp only [pyReplaceFuel]
      by_cases hp : (['_', '_'] : List Char).isPrefixOf (c :: cs) = true
      · rw [if_pos hp]
        have hd : List.drop (['_', '_'] : List Char).length (c :: cs) = List.drop 1 cs := rfl
        rw [hd]
        have h1 := ih (List.drop 1 cs)
        have h2 : (List.drop 1 cs).length = cs.length - 1 := List.length_drop 1 cs
        simp only [List.length_append, List.length_cons, List.length_nil]
        omega
      · rw [if_neg hp]
        have h1 := ih cs
        simp only [List.length_cons]
        omega

theorem pyReplaceFuel_len_lt (fuel : Nat) (s : List Char) (hf : s.length ≤ fuel)
    (h : containsSub ['_', '_'] s = true) :
    (pyReplaceFuel ['_', '_'] ['_'] fuel s).length < s.length := by
  induction fuel generalizing s with
  | zero =>
    cases s with
    | nil => cases h
    | cons c cs => simp at hf
  | succ f ih =>
    cases s with
    | nil => cases h
    | cons c cs =>
      simp only [pyReplaceFuel]
      by_cases hp : (['_', '_'] : List Char).isPrefixOf (c :: cs) = true
      · rw [if_pos hp]
        have hcs : 1 ≤ cs.length := by
          have := (List.isPrefixOf_iff_prefix.mp hp).length_le
          simp only [List.length_cons] at this ⊢
          omega
        have hd : List.drop (['_', '_'] : List Char).length (c :: cs) = List.drop 1 cs := rfl
        rw [hd]
        have h1 := pyReplaceFuel_len_le f (List.drop 1 cs)
        have h2 : (List.drop 1 cs).length = cs.length - 1 := List.length_drop 1 cs
        simp only [List.length_append, List.length_cons, List.length_nil]
        omega
      · rw [if_neg hp]
        have hcs : containsSub ['_', '_'] cs = true := by
          have : (((['_', '_'] : List Char).isPrefixOf (c :: cs)) ||
              containsSub ['_', '_'] cs) = true := h
          rcases Bool.or_eq_true_iff.mp this with h1 | h2
          · exact absurd h1 hp
          · exact h2
        have h1 := ih cs (by simp only [List.length_cons] at hf; omega) hcs
        simp only [List.length_cons]
        omega

theorem collapseFuel_no_double (fuel : Nat) (s : List Char) (hf : s.length ≤ fuel) :
    containsSub ['_', '_'] (collapseFuel fuel s) = false := by
  induction fuel generalizing s with
  | zero =>
    have hs : s = [] := List.length_eq_zero.mp (Nat.le_zero.mp hf)
    rw [hs]
    rfl
  | succ f ih =>
    simp only [collapseFuel]
    by_cases h : containsSub ['_', '_'] s = true
    · rw [if_pos h]
      refine ih _ ?_
      have := pyReplaceFuel_len_lt s.length s (Nat.le_refl _) h
      show (pyReplaceFuel ['_', '_'] ['_'] s.length s).length ≤ f
      omega
    · rw [if_neg h]
      exact Bool.eq_false_iff.mpr h

theorem collapse_no_double (s : List Char) :
    containsSub ['_', '_'] (collapseUnderscores s) = false :=
  collapseFuel_no_double s.length s (Nat.le_refl _)

theorem collapse_eq_self (s : List Char) (h : containsSub ['_', '_'] s = false) :
    collapseUnderscores s = s := by
  unfold collapseUnderscores
  cases hl : s.length with
  | zero => rfl
  | succ n =>
    simp only [collapseFuel]
    rw [if_neg (by rw [h]; exact Bool.false_ne_true)]

theorem mem_collapseFuel (fuel : Nat) (s : List Char) (c : Char)
    (h : c ∈ collapseFuel fuel s) : c ∈ s ∨ c = '_' := by
  induction fuel generalizing s with
  | zero => exact Or.inl h
  | succ f ih =>
    simp only [collapseFuel] at h
    by_cases hc : containsSub ['_', '_'] s = true
    · rw [if_pos hc] at h
      rcases ih _ h with hm | hu
      · rcases mem_pyReplaceFuel ['_', '_'] ['_'] s.length s c hm with hs | hr
        · exact Or.inl hs
        · exact Or.inr (List.mem_singleton.mp hr)
      · exact Or.inr hu
    · rw [if_neg hc] at h
      exact Or.inl h

theorem stripChars_isInfix (p : Char → Bool) (l : List Char) :
    stripChars p l <:+: l := by
  unfold stripChars
  have h1 : List.dropWhile p l <:+ l := List.dropWhile_suffix p
  have h2 : List.dropWhile p (List.dropWhile p l).reverse <:+
      (List.dropWhile p l).reverse := List.dropWhile_suffix p
  have h3 : (List.dropWhile p (List.dropWhile p l).reverse).reverse <+:
      List.dropWhile p l := by
    apply List.reverse_suffix.mp
    rw [List.reverse_reverse]
    exact h2
  exact h3.isInfix.trans h1.isInfix

theorem mem_foldl_delete (chs : List Char) (l : List Char) (c : Char)
    (h : c ∈ chs.foldl (fun acc ch => pyReplace [ch] [] acc) l) : c ∈ l := by
  induction chs generalizing l with
  | nil => exact h
  | cons ch rest ih =>
    rw [List.foldl_cons] at h
    have := ih (pyReplace [ch] [] l) h
    rw [pyReplace_delete] at this
    exact List.mem_of_mem_filter this

theorem foldl_delete_not_mem (chs : List Char) (l : List Char) (ch : Char)
    (h : ch ∈ chs) :
    ¬ ch ∈ chs.foldl (fun acc ch => pyReplace [ch] [] acc) l := by
  induction chs generalizing l with
  | nil => cases h
  | cons c2 rest ih =>
    rw [List.foldl_cons]
    rcases List.mem_cons.mp h with rfl | hrest
    · intro hmem
      have := mem_foldl_delete rest (pyReplace [ch] [] l) ch hmem
      rw [pyReplace_delete] at this
      have := List.of_mem_filter this
      simp at this
    · exact ih (pyReplace [c2] [] l) hrest

theorem foldl_delete_id (chs : List Char) (l : List Char)
    (h : ∀ ch ∈ chs, ¬ ch ∈ l) :
    chs.foldl (fun acc ch => pyReplace [ch] [] acc) l = l := by
  induction chs with
  | nil => rfl
  | cons ch rest ih =>
    have hfil : pyReplace [ch] [] l = l := by
      rw [pyReplace_delete]
      refine List.filter_eq_self.mpr ?_
      intro a ha
      have hne : ¬ a = ch := fun he => h ch (List.mem_cons_self ch rest) (he ▸ ha)
      simp [hne]
    rw [List.foldl_cons, hfil]
    exact ih (fun c2 hc2 => h c2 (List.mem_cons_of_mem ch hc2))

theorem sanitize_stage_props (s0 B C D L : List Char)
    (hB : B = pyReplace [' '] ['_'] (s0.map Char.toLower))
    (hC : C = invalidFilenameChars.data.foldl (fun acc ch => pyReplace [ch] [] acc) B)
    (hD : D = collapseUnderscores C)
    (hL : L = stripChars (fun c => c == '_') D) :
    (∀ c ∈ L, c.toLower = c) ∧ (¬ ' ' ∈ L) ∧
    (∀ ch ∈ invalidFilenameChars.data, ¬ ch ∈ L) ∧
    containsSub ['_', '_'] L = false ∧
    stripChars (fun c => c == '_') L = L := by
  have hmemB : ∀ c ∈ B, c.toLower = c ∧ ¬ c = ' ' := by
    intro c hc
    rw [hB, pyReplace_single] at hc
    rcases List.mem_map.mp hc with ⟨c0, hc0, hmap⟩
    rcases List.mem_map.mp hc0 with ⟨c1, _, hmap1⟩
    by_cases h0 : c0 = ' '
    · rw [if_pos h0] at hmap
      rw [← hmap]
      exact ⟨by decide, by decide⟩
    · rw [if_neg h0] at hmap
      rw [← hmap, ← hmap1]
      exact ⟨toLower_toLower c1, by rw [hmap1]; exact h0⟩
  have hmemC : ∀ c ∈ C, c ∈ B := by
    intro c hc
    rw [hC] at hc
    exact mem_foldl_delete invalidFilenameChars.data B c hc
  have hmemD : ∀ c ∈ D, c ∈ C ∨ c = '_' := by
    intro c hc
    rw [hD] at hc
    exact mem_collapseFuel C.length C c hc
  have hLinfix : L <:+: D := by
    rw [hL]
    exact stripChars_isInfix (fun c => c == '_') D
  have hmemL : ∀ c ∈ L, c ∈ D := fun c hc => hLinfix.subset hc
  refine ⟨?_, ?_, ?_, ?_, ?_⟩
  · intro c hc
    rcases hmemD c (hmemL c hc) with hcC | hcU
    · exact (hmemB c (hmemC c hcC)).1
    · rw [hcU]
      decide
  · intro hsp
    rcases hmemD ' ' (hmemL ' ' hsp) with hcC | hcU
    · exact (hmemB ' ' (hmemC ' ' hcC)).2 rfl
    · exact absurd hcU (by decide)
  · intro ch hch hmem
    rcases hmemD ch (hmemL ch hmem) with hcC | hcU
    · refine foldl_delete_not_mem invalidFilenameChars.data B ch hch ?_
      rw [hC] at hcC
      exact hcC
    · rw [hcU] at hch
      revert hch
      decide
  · cases hcs : containsSub ['_', '_'] L with
    | false => rfl
    | true =>
      have hinf : (['_', '_'] : List Char) <:+: L :=
        (containsSub_iff_sub ['_', '_'] L).mp hcs
      have hinf2 : (['_', '_'] : List Char) <:+: D := hinf.trans hLinfix
      have hcd : containsSub ['_', '_'] D = true :=
        (containsSub_iff_sub ['_', '_'] D).mpr hinf2
      rw [hD, collapse_no_double C] at hcd
      cases hcd
  · rw [hL]
    exact stripChars_idem (fun c => c == '_') D

theorem sanitize_image_props (s : String) :
    (∀ c ∈ (sanitizeFilename s).data, c.toLower = c) ∧
    (¬ ' ' ∈ (sanitizeFilename s).data) ∧
    (∀ ch ∈ invalidFilenameChars.data, ¬ ch ∈ (sanitizeFilename s).data) ∧
    containsSub ['_', '_'] (sanitizeFilename s).data = false ∧
    stripChars (fun c => c == '_') (sanitizeFilename s).data = (sanitizeFilename s).data := by
  have hdata : (sanitizeFilename s).data =
      stripChars (fun c => c == '_')
        (collapseUnderscores
          (invalidFilenameChars.data.foldl (fun acc ch => pyReplace [ch] [] acc)
            (pyReplace [' '] ['_'] (s.data.map Char.toLower)))) := by
    simp only [sanitizeFilename]
  rw [hdata]
  exact sanitize_stage_props s.data
    (pyReplace [' '] ['_'] (s.data.map Char.toLower))
    (invalidFilenameChars.data.foldl (fun acc ch => pyReplace [ch] [] acc)
      (pyReplace [' '] ['_'] (s.data.map Char.toLower)))
    (collapseUnderscores
      (invalidFilenameChars.data.foldl (fun acc ch => pyReplace [ch] [] acc)
        (pyReplace [' '] ['_'] (s.data.map Char.toLower))))
    (stripChars (fun c => c == '_')
      (collapseUnderscores
        (invalidFilenameChars.data.foldl (fun acc ch => pyReplace [ch] [] acc)
          (pyReplace [' '] ['_'] (s.data.map Char.toLower)))))
    rfl rfl rfl rfl

theorem sanitize_display_roundtrip (s : String) :
    sanitizeFilename (displayLabel (sanitizeFilename s)) = sanitizeFilename s := by
  obtain ⟨hlow, hnospace, hnoinv, hnodouble, hstrip⟩ := sanitize_image_props s
  apply String.ext
  have hX : (displayLabel (sanitizeFilename s)).data =
      pyTitleAux false (pyReplace ['_'] [' '] (sanitizeFilename s).data) := by
    simp only [displayLabel, pyTitle]
  have hdata : (sanitizeFilename (displayLabel (sanitizeFilename s))).data =
      stripChars (fun c => c == '_')
        (collapseUnderscores
          (invalidFilenameChars.data.foldl (fun acc ch => pyReplace [ch] [] acc)
            (pyReplace [' '] ['_']
              ((displayLabel (sanitizeFilename s)).data.map Char.toLower)))) := by
    simp only [sanitizeFilename]
  rw [hdata, hX]
  have hcongr : (sanitizeFilename s).data.map
      (Char.toLower ∘ (fun c => if c = '_' then ' ' else c)) =
      (sanitizeFilename s).data.map (fun c => if c = '_' then ' ' else c) := by
    refine List.map_congr_left ?_
    intro c hc
    rw [Function.comp_apply]
    by_cases h : c = '_'
    · rw [if_pos h]
      decide
    · rw [if_neg h]
      exact hlow c hc
  have h1 : ((pyTitleAux false (pyReplace ['_'] [' '] (sanitizeFilename s).data)).map
      Char.toLower) = pyReplace ['_'] [' '] (sanitizeFilename s).data := by
    rw [map_toLower_pyTitleAux, pyReplace_single, List.map_map, hcongr, ← pyReplace_single]
  have h2 : pyReplace [' '] ['_'] (pyReplace ['_'] [' '] (sanitizeFilename s).data) =
      (sanitizeFilename s).data := by
    rw [pyReplace_single, pyReplace_single, List.map_map]
    have hid : (sanitizeFilename s).data.map
        ((fun c => if c = ' ' then '_' else c) ∘ (fun c => if c = '_' then ' ' else c)) =
        (sanitizeFilename s).data.map id := by
      refine List.map_congr_left ?_
      intro c hc
      rw [Function.comp_apply]
      by_cases h : c = '_'
      · rw [if_pos h, h]
        rfl
      · rw [if_neg h]
        have hcsp : ¬ c = ' ' := fun he => hnospace (he ▸ hc)
        rw [if_neg hcsp]
        rfl
    rw [hid, List.map_id]
  have h3 : invalidFilenameChars.data.foldl (fun acc ch => pyReplace [ch] [] acc)
      (sanitizeFilename s).data = (sanitizeFilename s).data :=
    foldl_delete_id _ _ (fun ch hch => hnoinv ch hch)
  have h4 : collapseUnderscores (sanitizeFilename s).data = (sanitizeFilename s).data :=
    collapse_eq_self _ hnodouble
  rw [h1, h2, h3, h4, hstrip]

theorem find?_unique_name (store : List DirEntry) (d : DirEntry) (hd : d ∈ store)
    (hnd : (store.map (fun d => d.name)).Nodup) (hdir : d.isDir = true) :
    store.find? (fun e => e.isDir && (e.name == d.name)) = some d := by
  induction store with
  | nil => cases hd
  | cons e rest ih =>
    rcases List.mem_cons.mp hd with rfl | hrest
    · rw [List.find?_cons_of_pos _ (by rw [hdir]; simp)]
    · have hne : ¬ e.name = d.name := by
        rw [List.map_cons, List.nodup_cons] at hnd
        intro h
        exact hnd.1 (h ▸ List.mem_map.mpr ⟨d, hrest, rfl⟩)
      rw [List.find?_cons_of_neg _ (by simp [hne])]
      refine ih hrest ?_
      rw [List.map_cons, List.nodup_cons] at hnd
      exact hnd.2

/-- C10: directory names in the image of the Topic Namer survive the
lossy display mapping: for every topic string, sanitizing the display
label (underscores to spaces, title case) of its sanitized name gives
the sanitized name back; consequently, for a store whose directory
names are sanitizer images (as `create_topic_directory` guarantees)
and are distinct, every label shown by `listTopics` resolves — via the
Topic Namer used by `load`, `topicStats` and `listByTopic` — to
exactly the directory it was derived from. -/
theorem C10_display_label_roundtrip (store : List DirEntry)
    (himg : ∀ d ∈ store, ∃ s, d.name = sanitizeFilename s)
    (hnd : (store.map (fun d => d.name)).Nodup) :
    (∀ s : String,
      sanitizeFilename (displayLabel (sanitizeFilename s)) = sanitizeFilename s) ∧
    (∀ d ∈ store, getTopicDirectory (displayLabel d.name) = d.name) ∧
    (∀ d ∈ store, d.isDir = true →
      storeLoad store (displayLabel d.name) = loadPapersDatabase d.file) := by
  have hround : ∀ d ∈ store, sanitizeFilename (displayLabel d.name) = d.name := by
    intro d hd
    rcases himg d hd with ⟨s, hs⟩
    rw [hs]
    exact sanitize_display_roundtrip s
  refine ⟨sanitize_display_roundtrip, fun d hd => hround d hd, ?_⟩
  intro d hd hdir
  show loadPapersDatabase (storeResolve store (displayLabel d.name)) =
    loadPapersDatabase d.file
  unfold storeResolve
  rw [hround d hd, find?_unique_name store d hd hnd hdir]

/-- A one-directory store for the C10 witness; its name is the
sanitized form of "Machine Learning". -/
def storeRoundtrip : List DirEntry :=
  [⟨"machine_learning", true, FileState.missing⟩]

/-- Witness for C10 on a concrete store and topic. -/
theorem C10_display_label_roundtrip_witness :
    sanitizeFilename (displayLabel (sanitizeFilename "Machine Learning")) =
      sanitizeFilename "Machine Learning" ∧
    getTopicDirectory (displayLabel "machine_learning") = "machine_learning" := by
  have h := C10_display_label_roundtrip storeRoundtrip
    (by
      intro d hd
      rw [List.mem_singleton.mp hd]
      exact ⟨"Machine Learning", by decide⟩)
    (by decide)
  exact ⟨h.1 "Machine Learning",
    h.2.1 ⟨"machine_learning", true, FileState.missing⟩ (List.mem_singleton.mpr rfl)⟩
